/-
  Spec2Proof.lean — a verification development for the contract-schema
  package: a shallow embedding of its validation engine
  (contract_schema/validator.py and the analytic_schema.py variant), its
  content hasher (contract_schema/utils.py), and the document builder
  lifecycle (contract_schema/document.py, analytic_schema.py OutputDoc),
  together with theorems about the behaviours the specification describes.

  Conventions of the embedding:
  * Python values are modelled by the inductive type `Value` below.  Python
    floats and arbitrary objects are outside the model; `pandas.DataFrame`
    is modelled by its `to_json(orient="split")` serialization (`vdf`).
  * Python dicts are insertion-ordered association lists with (by Python's
    own construction) unique keys; uniqueness is a hypothesis where needed.
  * Exceptions are values of `PyError`; functions that can raise return
    `Except PyError _`, and in-place mutators return the mutated state
    together with `Option PyError` so that, as in Python, mutations made
    before a raise survive it.
  * Wall-clock time, uuid/user/host generation and the file system are
    inputs (`Env`), so every operation is a pure function of its inputs.
-/
import Mathlib

namespace ContractSchema

set_option maxHeartbeats 1000000
set_option linter.unnecessarySeqFocus false

/-- A Python value, as used by the contract-schema package: JSON scalars,
lists, tuples, dicts (insertion-ordered association lists over string keys)
and pandas DataFrames (identified with their stable textual serialization,
`to_json(orient="split", date_unit="ns")`).  Floats are carried as their
textual rendering (`vfloat`), enough to track where they flow; float
arithmetic and int/float cross-equality are outside the model. -/
inductive Value where
  | vnull : Value
  | vbool (b : Bool) : Value
  | vint (n : Int) : Value
  | vstr (s : String) : Value
  | vlist (xs : List Value) : Value
  | vtuple (xs : List Value) : Value
  | vdict (kvs : List (String × Value)) : Value
  | vdf (serialization : String) : Value
  | vfloat (txt : String) : Value
deriving Repr

mutual
/-- Structural (Lean-level) equality test for `Value`; nested lists keep the
derive handler from producing it, so it is written out. -/
def Value.beq : Value → Value → Bool
  | .vnull, .vnull => true
  | .vbool a, .vbool b => a == b
  | .vint a, .vint b => a == b
  | .vstr a, .vstr b => a == b
  | .vlist xs, .vlist ys => Value.beqList xs ys
  | .vtuple xs, .vtuple ys => Value.beqList xs ys
  | .vdict a, .vdict b => Value.beqPairs a b
  | .vdf a, .vdf b => a == b
  | .vfloat a, .vfloat b => a == b
  | _, _ => false

/-- Structural equality on lists of values. -/
def Value.beqList : List Value → List Value → Bool
  | [], [] => true
  | x :: xs, y :: ys => Value.beq x y && Value.beqList xs ys
  | _, _ => false

/-- Structural equality on dict entry lists. -/
def Value.beqPairs : List (String × Value) → List (String × Value) → Bool
  | [], [] => true
  | (k, v) :: xs, (k2, w) :: ys => k == k2 && Value.beq v w && Value.beqPairs xs ys
  | _, _ => false
end

mutual
def Value.beq_iff : ∀ a b : Value, Value.beq a b = true ↔ a = b
  | .vnull, b => by cases b <;> simp [Value.beq]
  | .vbool a, b => by cases b <;> simp [Value.beq]
  | .vint a, b => by cases b <;> simp [Value.beq]
  | .vstr a, b => by cases b <;> simp [Value.beq]
  | .vlist xs, b => by
      cases b <;> simp only [Value.beq] <;> simp
      exact Value.beqList_iff xs _
  | .vtuple xs, b => by
      cases b <;> simp only [Value.beq] <;> simp
      exact Value.beqList_iff xs _
  | .vdict a, b => by
      cases b <;> simp only [Value.beq] <;> simp
      exact Value.beqPairs_iff a _
  | .vdf a, b => by cases b <;> simp [Value.beq]
  | .vfloat a, b => by cases b <;> simp [Value.beq]

def Value.beqList_iff : ∀ xs ys : List Value, Value.beqList xs ys = true ↔ xs = ys
  | [], ys => by cases ys <;> simp [Value.beqList]
  | x :: xs, ys => by
      cases ys with
      | nil => simp [Value.beqList]
      | cons y ys =>
          simp [Value.beqList, Value.beq_iff x y, Value.beqList_iff xs ys]

def Value.beqPairs_iff :
    ∀ xs ys : List (String × Value), Value.beqPairs xs ys = true ↔ xs = ys
  | [], ys => by cases ys <;> simp [Value.beqPairs]
  | (k, v) :: xs, ys => by
      cases ys with
      | nil => simp [Value.beqPairs]
      | cons y ys =>
          obtain ⟨k2, w⟩ := y
          simp [Value.beqPairs, Value.beq_iff v w, Value.beqPairs_iff xs ys,
            Prod.ext_iff, and_assoc]
end

instance : DecidableEq Value := fun a b =>
  decidable_of_iff (Value.beq a b = true) (Value.beq_iff a b)

/-- The exception kinds the modelled code can raise.  `schemaError` is
`SchemaError` (a `ValueError` subclass) from validator.py / analytic_schema.py;
the rest are the corresponding Python built-ins. -/
inductive PyError where
  | schemaError (msg : String) : PyError
  | runtimeError (msg : String) : PyError
  | notImplementedError (msg : String) : PyError
  | keyError (msg : String) : PyError
  | typeError (msg : String) : PyError
  | valueError (msg : String) : PyError
  | fileNotFoundError (msg : String) : PyError
  | attributeError (msg : String) : PyError
deriving DecidableEq, Repr

/-- `d[k]` lookup on an insertion-ordered dict (keys are unique in any dict
Python actually builds, so first-match lookup is exact). -/
def dictGet (kvs : List (String × Value)) (k : String) : Option Value :=
  (kvs.find? (fun kv => kv.1 = k)).map (fun kv => kv.2)

/-- `d[k] = v` assignment: replaces in place when the key exists (Python
dicts keep the original insertion position), appends otherwise. -/
def dictSet (kvs : List (String × Value)) (k : String) (v : Value) :
    List (String × Value) :=
  if kvs.any (fun kv => kv.1 = k) then
    kvs.map (fun kv => if kv.1 = k then (k, v) else kv)
  else
    kvs ++ [(k, v)]

/-- `k in d` membership test. -/
def dictHas (kvs : List (String × Value)) (k : String) : Bool :=
  kvs.any (fun kv => kv.1 = k)

/-- `d.setdefault(k, v)`. -/
def dictSetdefault (kvs : List (String × Value)) (k : String) (v : Value) :
    List (String × Value) :=
  if dictHas kvs k then kvs else kvs ++ [(k, v)]

/-- Python truthiness (`bool(x)`) for the modelled values. -/
def pyTruthy : Value → Bool
  | .vnull => false
  | .vbool b => b
  | .vint n => n != 0
  | .vstr s => s != ""
  | .vlist xs => !xs.isEmpty
  | .vtuple xs => !xs.isEmpty
  | .vdict kvs => !kvs.isEmpty
  | .vdf _ => true
  | .vfloat t => t != "0.0"

/-- `type(x).__name__` for the modelled values. -/
def pyTypeName : Value → String
  | .vnull => "NoneType"
  | .vbool _ => "bool"
  | .vint _ => "int"
  | .vstr _ => "str"
  | .vlist _ => "list"
  | .vtuple _ => "tuple"
  | .vdict _ => "dict"
  | .vdf _ => "DataFrame"
  | .vfloat _ => "float"

mutual
/-- Python `==` on modelled values.  `True == 1` and `False == 0` hold
(bool is an int subclass); dict equality ignores insertion order; list and
tuple never compare equal to each other.  DataFrame equality is modelled as
equality of the stable serialization. -/
def pyEq : Value → Value → Bool
  | .vnull, .vnull => true
  | .vbool a, .vbool b => a == b
  | .vbool a, .vint b => (if a then (1 : Int) else 0) == b
  | .vint a, .vbool b => a == (if b then (1 : Int) else 0)
  | .vint a, .vint b => a == b
  | .vstr a, .vstr b => a == b
  | .vlist xs, .vlist ys => pyEqList xs ys
  | .vtuple xs, .vtuple ys => pyEqList xs ys
  | .vdict a, .vdict b => a.length == b.length && pyEqDictAll a b
  | .vdf a, .vdf b => a == b
  | .vfloat a, .vfloat b => a == b
  | _, _ => false

/-- Elementwise Python `==` on sequences of equal length. -/
def pyEqList : List Value → List Value → Bool
  | [], [] => true
  | x :: xs, y :: ys => pyEq x y && pyEqList xs ys
  | _, _ => false

/-- Every key of the first dict is present in the second with `==` value. -/
def pyEqDictAll : List (String × Value) → List (String × Value) → Bool
  | [], _ => true
  | (k, v) :: rest, b =>
      (match dictGet b k with
       | some w => pyEq v w
       | none => false) && pyEqDictAll rest b
end

/-- Python `in` on a list (membership by `==`). -/
def pyMem (v : Value) (xs : List Value) : Bool :=
  xs.any (fun x => pyEq x v)

/-! ## Canonical JSON serialization (json.dumps with sort_keys=True,
separators=(",",":"), ensure_ascii=True), the content hasher
(utils._json_safe / utils._hash) and a bit-level SHA-256. -/

/-- Decimal digit characters of `n`, most significant first, on top of
`acc`; structural on a fuel that the wrapper seeds above the digit count. -/
def natCharsF : Nat → Nat → List Char → List Char
  | 0, _, acc => acc
  | fuel + 1, n, acc =>
      let d := Char.ofNat (48 + n % 10)
      if n < 10 then d :: acc else natCharsF fuel (n / 10) (d :: acc)

/-- Decimal digit characters of `n`, most significant first, on top of `acc`. -/
def natChars (n : Nat) (acc : List Char) : List Char := natCharsF (n + 1) n acc

/-- The decimal rendering of an integer, as Python's `json.dumps`/`str` emit it. -/
def intChars (i : Int) : List Char :=
  if i < 0 then '-' :: natChars i.natAbs [] else natChars i.natAbs []

/-- Lower-case hexadecimal digit for `n < 16`. -/
def hexDigitChar (n : Nat) : Char :=
  if n < 10 then Char.ofNat (48 + n) else Char.ofNat (87 + n)

/-- A `\uXXXX` escape (16-bit code unit, lower-case hex). -/
def uEscape (n : Nat) : List Char :=
  ['\\', 'u', hexDigitChar (n / 4096 % 16), hexDigitChar (n / 256 % 16),
   hexDigitChar (n / 16 % 16), hexDigitChar (n % 16)]

/-- One character as Python's json encoder emits it with `ensure_ascii=True`:
printable ASCII other than `"` and `\` is literal; the two-character short
escapes cover `"`, `\`, backspace, form feed, newline, carriage return, tab;
every other character becomes `\uXXXX` (a surrogate pair beyond U+FFFF). -/
def escChar (c : Char) : List Char :=
  if c = '"' then ['\\', '"']
  else if c = '\\' then ['\\', '\\']
  else if c = '\n' then ['\\', 'n']
  else if c = '\r' then ['\\', 'r']
  else if c = '\t' then ['\\', 't']
  else if c.toNat = 8 then ['\\', 'b']
  else if c.toNat = 12 then ['\\', 'f']
  else if 32 ≤ c.toNat ∧ c.toNat ≤ 126 then [c]
  else if c.toNat < 65536 then uEscape c.toNat
  else
    uEscape (55296 + (c.toNat - 65536) / 1024) ++ uEscape (56320 + (c.toNat - 65536) % 1024)

/-- A JSON string literal: quote, escaped characters, quote. -/
def strLitChars (s : String) : List Char :=
  '"' :: (s.toList.flatMap escChar ++ ['"'])

/-- Code-point lexicographic `≤` on character lists (how Python compares the
strings that `sort_keys=True` sorts). -/
def charsLe : List Char → List Char → Bool
  | [], _ => true
  | _ :: _, [] => false
  | a :: as, b :: bs =>
      if a.toNat < b.toNat then true
      else if b.toNat < a.toNat then false
      else charsLe as bs

/-- Lexicographic `≤` on strings by code point. -/
def strLe (a b : String) : Bool := charsLe a.toList b.toList

/-- The key order `sort_keys=True` uses, on dict entries. -/
def keyLe (a b : String × Value) : Prop := strLe a.1 b.1 = true

instance : DecidableRel keyLe := fun a b => instDecidableEqBool (strLe a.1 b.1) true

/-- Dict entries sorted (stably) by key, as `json.dumps(..., sort_keys=True)`
orders them. -/
def sortPairs (kvs : List (String × Value)) : List (String × Value) :=
  kvs.insertionSort keyLe

mutual
/-- The character stream `json.dumps(v, sort_keys=True, separators=(",",":"))`
produces.  Tuples serialize as arrays (Python's json does); a bare DataFrame
would make `json.dumps` raise `TypeError`, and `_json_safe` replaces every
DataFrame before serialization, so the `vdf` case is unreachable in the
modelled pipeline — a fixed marker keeps the function total. -/
def encL : Value → List Char
  | .vnull => ['n', 'u', 'l', 'l']
  | .vbool true => ['t', 'r', 'u', 'e']
  | .vbool false => ['f', 'a', 'l', 's', 'e']
  | .vint n => intChars n
  | .vstr s => strLitChars s
  | .vlist xs => '[' :: (encItems xs ++ [']'])
  | .vtuple xs => '[' :: (encItems xs ++ [']'])
  | .vdict kvs => '\x7b' :: (encMembers (sortPairs kvs) ++ ['\x7d'])
  | .vdf _ => ['\\', 'x', 'd', 'f']
  | .vfloat t => t.toList
  termination_by v => sizeOf v
  decreasing_by
    all_goals simp_wf
    have hperm := (List.perm_insertionSort keyLe kvs).sizeOf_eq_sizeOf
    simp only [sortPairs] at *
    omega

/-- Comma-separated array items. -/
def encItems : List Value → List Char
  | [] => []
  | [x] => encL x
  | x :: y :: rest => encL x ++ ',' :: encItems (y :: rest)
  termination_by xs => sizeOf xs

/-- Comma-separated `"key":value` members (already key-sorted by the caller). -/
def encMembers : List (String × Value) → List Char
  | [] => []
  | [(k, v)] => strLitChars k ++ ':' :: encL v
  | (k, v) :: m :: rest =>
      strLitChars k ++ ':' :: (encL v ++ ',' :: encMembers (m :: rest))
  termination_by kvs => sizeOf kvs
end

/-- The canonical JSON text of a value (what the hasher digests). -/
def canonJson (v : Value) : String := ⟨encL v⟩

/-- UTF-8 bytes of one character. -/
def charUtf8 (c : Char) : List Nat :=
  let n := c.toNat
  if n < 128 then [n]
  else if n < 2048 then [192 + n / 64, 128 + n % 64]
  else if n < 65536 then [224 + n / 4096, 128 + n / 64 % 64, 128 + n % 64]
  else [240 + n / 262144, 128 + n / 4096 % 64, 128 + n / 64 % 64, 128 + n % 64]

/-- UTF-8 encoding of a string (`str.encode()`), as a byte list. -/
def utf8Bytes (s : String) : List Nat := s.toList.flatMap charUtf8

/-- Truncation to a 32-bit word. -/
def w32 (n : Nat) : Nat := n % 4294967296

/-- 32-bit right rotation. -/
def rotr (k n : Nat) : Nat := w32 ((n >>> k) ||| (n <<< (32 - k)))

/-- The 64 SHA-256 round constants of FIPS 180-4 (cube-root fractions of
the first 64 primes), in decimal. -/
def shaK : List Nat :=
  [1116352408, 1899447441, 3049323471, 3921009573, 961987163,
   1508970993, 2453635748, 2870763221, 3624381080, 310598401,
   607225278, 1426881987, 1925078388, 2162078206, 2614888103,
   3248222580, 3835390401, 4022224774, 264347078, 604807628,
   770255983, 1249150122, 1555081692, 1996064986, 2554220882,
   2821834349, 2952996808, 3210313671, 3336571891, 3584528711,
   113926993, 338241895, 666307205, 773529912, 1294757372,
   1396182291, 1695183700, 1986661051, 2177026350, 2456956037,
   2730485921, 2820302411, 3259730800, 3345764771, 3516065817,
   3600352804, 4094571909, 275423344, 430227734, 506948616,
   659060556, 883997877, 958139571, 1322822218, 1537002063,
   1747873779, 1955562222, 2024104815, 2227730452, 2361852424,
   2428436474, 2756734187, 3204031479, 3329325298]

/-- Big-endian 8-byte rendering of a (length) value. -/
def be8 (n : Nat) : List Nat :=
  [n / 72057594037927936 % 256, n / 281474976710656 % 256,
   n / 1099511627776 % 256, n / 4294967296 % 256, n / 16777216 % 256,
   n / 65536 % 256, n / 256 % 256, n % 256]

/-- SHA-256 padding: `0x80`, zeros to 56 mod 64, then the bit length. -/
def shaPad (msg : List Nat) : List Nat :=
  msg ++ 128 :: (List.replicate ((119 - msg.length % 64) % 64) 0 ++ be8 (8 * msg.length))

/-- Big-endian 4-byte grouping of a byte list into 32-bit words. -/
def bytesToWords : List Nat → List Nat
  | b0 :: b1 :: b2 :: b3 :: rest =>
      (((b0 * 256 + b1) * 256 + b2) * 256 + b3) :: bytesToWords rest
  | _ => []

/-- Split a word list into 16-word blocks. -/
def wordBlocks (ws : List Nat) : List (List Nat) :=
  match ws with
  | [] => []
  | w :: rest => (w :: rest.take 15) :: wordBlocks (rest.drop 15)
termination_by ws.length
decreasing_by simp [List.length_drop]; omega

/-- Message-schedule small sigma-0. -/
def ssig0 (x : Nat) : Nat := (rotr 7 x) ^^^ (rotr 18 x) ^^^ (x >>> 3)

/-- Message-schedule small sigma-1. -/
def ssig1 (x : Nat) : Nat := (rotr 17 x) ^^^ (rotr 19 x) ^^^ (x >>> 10)

/-- Extend the 16 block words to 64 schedule words; `acc` is kept reversed
(most recent word first) so the recurrence indexes at 1, 6, 14, 15. -/
def schedRev (acc : List Nat) : Nat → List Nat
  | 0 => acc
  | k + 1 =>
      schedRev
        (w32 (ssig1 (acc.getD 1 0) + acc.getD 6 0 + ssig0 (acc.getD 14 0)
              + acc.getD 15 0) :: acc) k

/-- The 64-word message schedule of one block. -/
def schedule (block : List Nat) : List Nat := (schedRev block.reverse 48).reverse

/-- The eight SHA-256 working registers. -/
structure Sha8 where
  a : Nat
  b : Nat
  c : Nat
  d : Nat
  e : Nat
  f : Nat
  g : Nat
  h : Nat
deriving DecidableEq, Repr

/-- One compression round: `w` the schedule word, `k` the round constant. -/
def shaRound (st : Sha8) (wk : Nat × Nat) : Sha8 :=
  let s1 := (rotr 6 st.e) ^^^ (rotr 11 st.e) ^^^ (rotr 25 st.e)
  let ch := (st.e &&& st.f) ^^^ ((st.e ^^^ 4294967295) &&& st.g)
  let t1 := w32 (st.h + s1 + ch + wk.2 + wk.1)
  let s0 := (rotr 2 st.a) ^^^ (rotr 13 st.a) ^^^ (rotr 22 st.a)
  let mj := (st.a &&& st.b) ^^^ (st.a &&& st.c) ^^^ (st.b &&& st.c)
  let t2 := w32 (s0 + mj)
  ⟨w32 (t1 + t2), st.a, st.b, st.c, w32 (st.d + t1), st.e, st.f, st.g⟩

/-- Compress one 16-word block into the running hash state. -/
def shaBlock (hs : Sha8) (block : List Nat) : Sha8 :=
  let st := ((schedule block).zip shaK).foldl shaRound hs
  ⟨w32 (hs.a + st.a), w32 (hs.b + st.b), w32 (hs.c + st.c), w32 (hs.d + st.d),
   w32 (hs.e + st.e), w32 (hs.f + st.f), w32 (hs.g + st.g), w32 (hs.h + st.h)⟩

/-- SHA-256 of a byte list, as 32 output bytes. -/
def sha256Bytes (msg : List Nat) : List Nat :=
  let init : Sha8 :=
    ⟨0x6a09e667, 0xbb67ae85, 0x3c6ef372, 0xa54ff53a,
     0x510e527f, 0x9b05688c, 0x1f83d9ab, 0x5be0cd19⟩
  let fin := ((wordBlocks (bytesToWords (shaPad msg)))).foldl shaBlock init
  [fin.a, fin.b, fin.c, fin.d, fin.e, fin.f, fin.g, fin.h].flatMap
    (fun w => [w / 16777216 % 256, w / 65536 % 256, w / 256 % 256, w % 256])

/-- Lower-case hex rendering of a byte list. -/
def bytesHex (bs : List Nat) : String :=
  ⟨bs.flatMap (fun b => [hexDigitChar (b / 16 % 16), hexDigitChar (b % 16)])⟩

/-- `hashlib.sha256(s.encode()).hexdigest()`. -/
def sha256hex (s : String) : String := bytesHex (sha256Bytes (utf8Bytes s))

mutual
/-- utils._json_safe: recursively prepare a value for deterministic JSON
hashing — dicts and lists map their contents, tuples become lists, and a
DataFrame is replaced by the proxy token holding the SHA-256 of its stable
serialization.  Everything else passes through. -/
def jsonSafe : Value → Value
  | .vdict kvs => .vdict (jsonSafePairs kvs)
  | .vlist xs => .vlist (jsonSafeList xs)
  | .vtuple xs => .vlist (jsonSafeList xs)
  | .vdf js => .vdict [("__dataframe_sha256__", .vstr (sha256hex js))]
  | .vnull => .vnull
  | .vbool b => .vbool b
  | .vint n => .vint n
  | .vstr s => .vstr s
  | .vfloat t => .vfloat t

/-- `_json_safe` mapped over list elements. -/
def jsonSafeList : List Value → List Value
  | [] => []
  | x :: xs => jsonSafe x :: jsonSafeList xs

/-- `_json_safe` mapped over dict values. -/
def jsonSafePairs : List (String × Value) → List (String × Value)
  | [] => []
  | (k, v) :: rest => (k, jsonSafe v) :: jsonSafePairs rest
end

/-- utils._hash: the deterministic SHA-256 of the canonical JSON text of the
JSON-safe form of a value. -/
def hashVal (v : Value) : String := sha256hex (canonJson (jsonSafe v))

/-- The exact byte string `_hash` feeds to SHA-256 (its "hash input").  Two
values with the same hash input necessarily receive the same digest. -/
def hashInput (v : Value) : String := canonJson (jsonSafe v)

/-! ## Python string renderings used in error messages -/

mutual
/-- Python `repr` of a value (strings in single quotes; escaping inside
reprs is immaterial to the modelled messages and elided). -/
def pyRepr : Value → String
  | .vnull => "None"
  | .vbool true => "True"
  | .vbool false => "False"
  | .vint n => ⟨intChars n⟩
  | .vstr s => "\x27" ++ s ++ "\x27"
  | .vlist xs => "[" ++ pyReprList xs ++ "]"
  | .vtuple xs => "(" ++ pyReprList xs ++ ")"
  | .vdict kvs => "\x7b" ++ pyReprPairs kvs ++ "\x7d"
  | .vdf js => "DataFrame(" ++ js ++ ")"
  | .vfloat t => t

/-- Comma-separated reprs of list elements. -/
def pyReprList : List Value → String
  | [] => ""
  | [x] => pyRepr x
  | x :: y :: rest => pyRepr x ++ ", " ++ pyReprList (y :: rest)

/-- Comma-separated `'key': value` reprs of dict entries. -/
def pyReprPairs : List (String × Value) → String
  | [] => ""
  | [(k, v)] => "\x27" ++ k ++ "\x27: " ++ pyRepr v
  | (k, v) :: m :: rest => "\x27" ++ k ++ "\x27: " ++ pyRepr v ++ ", " ++ pyReprPairs (m :: rest)
end

/-- Python `str` of a value (`repr` except that strings stay bare). -/
def pyStr : Value → String
  | .vstr s => s
  | v => pyRepr v

/-- Python `repr` of a list of strings, e.g. in `expected ['string']`. -/
def pyStrListRepr (xs : List String) : String :=
  "[" ++ String.intercalate ", " (xs.map (fun s => "\x27" ++ s ++ "\x27")) ++ "]"

/-- `≤` on strings as a decidable relation. -/
def strLeP (a b : String) : Prop := strLe a b = true

instance : DecidableRel strLeP := fun a b => instDecidableEqBool (strLe a b) true

/-- Strings sorted lexicographically (`sorted(...)` on a set of keys). -/
def sortStrs (xs : List String) : List String := xs.insertionSort strLeP

/-! ## Date-time checking (utils._is_datetime / analytic_schema._is_datetime)
and ISO-8601 timestamp arithmetic for the document builder. -/

/-- Take exactly `n` ASCII digits off the front, returning their value. -/
def takeDigitsN : Nat → List Char → Option (Nat × List Char)
  | 0, cs => some (0, cs)
  | _ + 1, [] => none
  | n + 1, c :: cs =>
      if 48 ≤ c.toNat ∧ c.toNat ≤ 57 then
        match takeDigitsN n cs with
        | some (v, rest) => some ((c.toNat - 48) * 10 ^ n + v, rest)
        | none => none
      else none

/-- The fields of a strict ISO-8601 date-time
`YYYY-MM-DDTHH:MM:SS[.ffffff](Z|±HH:MM)`. -/
structure IsoParts where
  year : Nat
  month : Nat
  day : Nat
  hour : Nat
  minute : Nat
  second : Nat
  micro : Nat
  offsetMinutes : Int
deriving DecidableEq, Repr

/-- Days in a month of the proleptic Gregorian calendar. -/
def daysInMonth (y m : Nat) : Nat :=
  if m = 2 then
    if y % 4 = 0 ∧ (y % 100 ≠ 0 ∨ y % 400 = 0) then 29 else 28
  else if m = 4 ∨ m = 6 ∨ m = 9 ∨ m = 11 then 30
  else 31

/-- Fractional seconds: one to six digits after the dot, scaled to
microseconds; fails on zero or more than six digits. -/
def parseFracMicros : List Char → Option (Nat × List Char) :=
  fun cs =>
    let ds := cs.takeWhile (fun c => 48 ≤ c.toNat ∧ c.toNat ≤ 57)
    let rest := cs.dropWhile (fun c => 48 ≤ c.toNat ∧ c.toNat ≤ 57)
    if 1 ≤ ds.length ∧ ds.length ≤ 6 then
      some ((ds.foldl (fun acc c => acc * 10 + (c.toNat - 48)) 0) * 10 ^ (6 - ds.length), rest)
    else none

/-- The mandatory UTC-offset tail: `Z`, or `±HH:MM` ending the string, as a
signed minute count (`fromisoformat` requires the offset magnitude below 24
hours). -/
def parseOffset : List Char → Option Int
  | ['Z'] => some 0
  | '+' :: r =>
      (match takeDigitsN 2 r with
       | some (oh, ':' :: r2) =>
           (match takeDigitsN 2 r2 with
            | some (om, []) =>
                if oh ≤ 23 ∧ om ≤ 59 then some ((oh : Int) * 60 + om) else none
            | _ => none)
       | _ => none)
  | '-' :: r =>
      (match takeDigitsN 2 r with
       | some (oh, ':' :: r2) =>
           (match takeDigitsN 2 r2 with
            | some (om, []) =>
                if oh ≤ 23 ∧ om ≤ 59 then some (-((oh : Int) * 60 + om)) else none
            | _ => none)
       | _ => none)
  | _ => none

/-- Parse the strict ISO-8601 shape that both `_DT_RE` and (after the
`Z`→`+00:00` rewrite) `datetime.fromisoformat` accept, with the field-range
checks `fromisoformat` performs. -/
def parseIsoParts (s : String) : Option IsoParts := do
  let (y, r1) ← takeDigitsN 4 s.toList
  let r2 ← match r1 with | '-' :: r => some r | _ => none
  let (mo, r3) ← takeDigitsN 2 r2
  let r4 ← match r3 with | '-' :: r => some r | _ => none
  let (d, r5) ← takeDigitsN 2 r4
  let r6 ← match r5 with | 'T' :: r => some r | _ => none
  let (hh, r7) ← takeDigitsN 2 r6
  let r8 ← match r7 with | ':' :: r => some r | _ => none
  let (mi, r9) ← takeDigitsN 2 r8
  let r10 ← match r9 with | ':' :: r => some r | _ => none
  let (ss, r11) ← takeDigitsN 2 r10
  let (us, r12) ← match r11 with
    | '.' :: r => parseFracMicros r
    | r => some (0, r)
  let off ← parseOffset r12
  if 1 ≤ mo ∧ mo ≤ 12 ∧ 1 ≤ d ∧ d ≤ daysInMonth y mo ∧ hh ≤ 23 ∧ mi ≤ 59 ∧ ss ≤ 59
     ∧ 1 ≤ y ∧ y ≤ 9999 then
    some ⟨y, mo, d, hh, mi, ss, us, off⟩
  else none

/-- `_is_datetime`: a value is a string in the strict ISO-8601 shape that
also survives `datetime.fromisoformat`. -/
def isDatetime : Value → Bool
  | .vstr s => (parseIsoParts s).isSome
  | _ => false

/-- Days from the civil epoch 0000-03-01 (standard days-from-civil
computation), used to subtract two timestamps. -/
def daysFromCivil (y m d : Nat) : Int :=
  let ym : Int := if m ≤ 2 then (y : Int) - 1 else y
  let era : Int := ym / 400
  let yoe : Int := ym - era * 400
  let mp : Int := ((m : Int) + 9) % 12
  let doy : Int := (153 * mp + 2) / 5 + (d : Int) - 1
  let doe : Int := yoe * 365 + yoe / 4 - yoe / 100 + doy
  era * 146097 + doe

/-- Microseconds since the civil epoch, UTC (offset subtracted). -/
def epochMicros (p : IsoParts) : Int :=
  ((daysFromCivil p.year p.month p.day * 24 + p.hour) * 60 + p.minute
    - p.offsetMinutes) * 60 * 1000000 + p.second * 1000000 + p.micro

/-! ## The unified validator (contract_schema/validator.py) -/

/-- A schema node's `type`: a scalar tag or a list of tags (the code turns a
scalar into a one-element list; empty lists and empty tags are falsy and
skip the check). -/
inductive TypeSpec where
  | one (t : String) : TypeSpec
  | many (ts : List String) : TypeSpec
deriving DecidableEq, Repr

/-- Truthiness of the raw `type` entry (`if stype:`). -/
def TypeSpec.truthy : TypeSpec → Bool
  | .one t => t != ""
  | .many ts => !ts.isEmpty

/-- `list(stype) if isinstance(stype, (list, tuple)) else [stype]`. -/
def TypeSpec.allowed : TypeSpec → List String
  | .one t => [t]
  | .many ts => ts

/-- `isinstance(value, _TYPE_MAP.get(t, object))` from utils._TYPE_MAP:
`integer` maps to `int` and Python's `bool` is a subclass of `int`, so
booleans satisfy it (likewise `number`); an unknown tag falls back to
`object`, which every value satisfies. -/
def typeMatches (t : String) (v : Value) : Bool :=
  if t = "string" then (match v with | .vstr _ => true | _ => false)
  else if t = "integer" then (match v with | .vint _ => true | .vbool _ => true | _ => false)
  else if t = "number" then
    (match v with | .vint _ => true | .vbool _ => true | .vfloat _ => true | _ => false)
  else if t = "boolean" then (match v with | .vbool _ => true | _ => false)
  else if t = "object" then (match v with | .vdict _ => true | _ => false)
  else if t = "list" then (match v with | .vlist _ => true | _ => false)
  else if t = "dataframe" then (match v with | .vdf _ => true | _ => false)
  else true

/-- A schema node of the compact contract dialect consumed by
contract_schema/validator.py.  `oneOf` can appear in the data (the analytic
dialect uses it) but this validator never reads it; `default` is read only
by Contract.parse_and_validate_input; `required` is the per-field flag. -/
inductive CSchema where
  | mk (type : Option TypeSpec) (enum : Option (List Value)) (format : Option String)
       (oneOf : Option (List CSchema))
       (fields : Option (List (String × CSchema)))
       (addl : Option Bool)
       (items : Option CSchema)
       (subtype : Option String)
       (required : Bool)
       (default : Option Value) : CSchema

/-- The `type` entry. -/
def CSchema.type : CSchema → Option TypeSpec
  | .mk t _ _ _ _ _ _ _ _ _ => t

/-- The `enum` entry. -/
def CSchema.enum : CSchema → Option (List Value)
  | .mk _ e _ _ _ _ _ _ _ _ => e

/-- The `format` entry. -/
def CSchema.format : CSchema → Option String
  | .mk _ _ f _ _ _ _ _ _ _ => f

/-- The `oneOf` entry (never consulted by this validator). -/
def CSchema.oneOf : CSchema → Option (List CSchema)
  | .mk _ _ _ o _ _ _ _ _ _ => o

/-- The `fields` entry. -/
def CSchema.fields : CSchema → Option (List (String × CSchema))
  | .mk _ _ _ _ f _ _ _ _ _ => f

/-- The `additionalProperties` entry. -/
def CSchema.addl : CSchema → Option Bool
  | .mk _ _ _ _ _ a _ _ _ _ => a

/-- The `items` entry. -/
def CSchema.items : CSchema → Option CSchema
  | .mk _ _ _ _ _ _ i _ _ _ => i

/-- The `subtype` entry. -/
def CSchema.subtype : CSchema → Option String
  | .mk _ _ _ _ _ _ _ s _ _ => s

/-- The per-field `required` flag (`meta.get("required")` truthiness). -/
def CSchema.required : CSchema → Bool
  | .mk _ _ _ _ _ _ _ _ r _ => r

/-- The `default` entry. -/
def CSchema.default : CSchema → Option Value
  | .mk _ _ _ _ _ _ _ _ _ d => d

/-- The empty schema node `{}` (`fields.get(k, {})`). -/
def CSchema.empty : CSchema := .mk none none none none none none none none false none

/-- `fields.get(k, {})`. -/
def fieldsGet (fields : List (String × CSchema)) (k : String) : CSchema :=
  match fields.find? (fun kv => kv.1 = k) with
  | some kv => kv.2
  | none => CSchema.empty

/-- Decimal string of a natural number. -/
def natStr (n : Nat) : String := ⟨natChars n []⟩

/-- `f"{path}.{k}" if path else k`. -/
def childPath (path k : String) : String :=
  if path != "" then path ++ "." ++ k else k

/-- The resolved type of a node: an explicit `type` entry, else the
implicit `["object"]` when only `fields` is present. -/
def inferType (schema : CSchema) : Option TypeSpec :=
  match schema.type with
  | some t => some t
  | none => if schema.fields.isSome then some (.many ["object"]) else none

/-- Step 1 of validator.validate: the runtime type check. -/
def typeStep (stype : Option TypeSpec) (value : Value) (path : String) :
    Except PyError Unit :=
  match stype with
  | some ts =>
      if ts.truthy then
        if ts.allowed.any (fun t => typeMatches t value) then .ok ()
        else .error (.schemaError (path ++ ": expected " ++ pyStrListRepr ts.allowed
              ++ ", got " ++ pyTypeName value))
      else .ok ()
  | none => .ok ()

/-- Step 2: enum membership by Python `==`. -/
def enumStep (enum : Option (List Value)) (value : Value) (path : String) :
    Except PyError Unit :=
  match enum with
  | some es =>
      if pyMem value es then .ok ()
      else .error (.schemaError (path ++ ": \x27" ++ pyStr value ++ "\x27 not in "
            ++ pyRepr (.vlist es)))
  | none => .ok ()

/-- Step 3: the `date-time` format check. -/
def formatStep (format : Option String) (value : Value) (path : String) :
    Except PyError Unit :=
  if format = some "date-time" ∧ ¬ isDatetime value then
    .error (.schemaError (path ++ ": \x27" ++ pyStr value
          ++ "\x27 is not ISO-8601 date-time"))
  else .ok ()

/-- The object-level checks of step 4: missing required fields, then
unexpected fields when `additionalProperties` is literally `False`. -/
def objChecks (fields : List (String × CSchema)) (addl : Option Bool)
    (kvs : List (String × Value)) (path : String) : Except PyError Unit :=
  let required := (fields.filter (fun kv => kv.2.required)).map (fun kv => kv.1)
  let missing := required.filter (fun k => ¬ dictHas kvs k)
  if missing ≠ [] then
    .error (.schemaError (path ++ ": missing required " ++ pyStrListRepr (sortStrs missing)))
  else
    let extras := (kvs.map (fun kv => kv.1)).filter
      (fun k => ¬ fields.any (fun f => f.1 = k))
    if addl = some false ∧ extras ≠ [] then
      .error (.schemaError (path ++ ": unexpected fields " ++ pyStrListRepr (sortStrs extras)))
    else .ok ()

/-- The `items`-or-`subtype` item schema of step 5. -/
def itemSchemaOf (schema : CSchema) : Option CSchema :=
  match schema.items with
  | some i => some i
  | none =>
      match schema.subtype with
      | some st => some (.mk (some (.many [st])) none none none none none none none false none)
      | none => none

mutual
/-- validator.validate: depth-first validation enforcing `type` (scalar or
list, with fields-implies-object inference), `enum` (Python `in`),
`format: date-time`, object `fields`/per-field `required`/
`additionalProperties`, and list `items`/`subtype`.  Note that `oneOf` is
not among the constructs this engine reads. -/
def cvalidate (value : Value) (schema : CSchema) (path : String) :
    Except PyError Unit := do
  typeStep (inferType schema) value path
  enumStep schema.enum value path
  formatStep schema.format value path
  match value with
  | .vdict kvs =>
      (match schema.fields with
       | some fields => do
           objChecks fields schema.addl kvs path
           cvalidateChildren kvs fields path
       | none => pure ())
  | _ => pure ()
  match value with
  | .vlist xs =>
      (match itemSchemaOf schema with
       | some isch => cvalidateItems xs isch path 0
       | none => pure ())
  | _ => pure ()
  termination_by sizeOf value
  decreasing_by all_goals simp_wf

/-- Recursion into an object's present keys, in insertion order, against
`fields.get(k, {})`. -/
def cvalidateChildren (entries : List (String × Value))
    (fields : List (String × CSchema)) (path : String) : Except PyError Unit :=
  match entries with
  | [] => pure ()
  | (k, v) :: rest => do
      cvalidate v (fieldsGet fields k) (childPath path k)
      cvalidateChildren rest fields path
  termination_by sizeOf entries
  decreasing_by all_goals simp_wf <;> omega

/-- Recursion into list items with bracket-indexed paths. -/
def cvalidateItems (xs : List Value) (ischema : CSchema) (path : String)
    (idx : Nat) : Except PyError Unit :=
  match xs with
  | [] => pure ()
  | x :: rest => do
      cvalidate x ischema (path ++ "[" ++ natStr idx ++ "]")
      cvalidateItems rest ischema path (idx + 1)
  termination_by sizeOf xs
  decreasing_by all_goals simp_wf <;> omega
end

/-! ## The analytic-dialect validator (analytic_schema.py `_validate`):
JSON-Schema style `properties` / `required`-list / `oneOf`. -/

/-- A schema node of the analytic dialect. -/
inductive ASchema where
  | mk (type : Option String) (enum : Option (List Value)) (format : Option String)
       (oneOf : Option (List ASchema))
       (properties : Option (List (String × ASchema)))
       (required : Option (List String))
       (addl : Option Bool)
       (items : Option ASchema) : ASchema

/-- The `type` entry (a scalar tag in this dialect). -/
def ASchema.type : ASchema → Option String
  | .mk t _ _ _ _ _ _ _ => t

/-- The `oneOf` entry. -/
def ASchema.oneOf : ASchema → Option (List ASchema)
  | .mk _ _ _ o _ _ _ _ => o

/-- `sub_schema.get("type", "unknown")`, as interpolated into oneOf
sub-error lines. -/
def ASchema.typeTag (s : ASchema) : String :=
  match s.type with
  | some t => t
  | none => "unknown"

/-- `_TYPE_DISPATCH.get(stype)`: the runtime instance check for a scalar
tag, or `none` for an unknown tag (whose check is skipped).  As in
utils._TYPE_MAP, Python's `bool` being an `int` subclass makes booleans
satisfy `integer` and `number`. -/
def aTypeMatch (t : String) : Option (Value → Bool) :=
  if t = "string" then some (fun v => match v with | .vstr _ => true | _ => false)
  else if t = "integer" then some (fun v => match v with | .vint _ => true | .vbool _ => true | _ => false)
  else if t = "number" then
    some (fun v => match v with | .vint _ => true | .vbool _ => true | .vfloat _ => true | _ => false)
  else if t = "object" then some (fun v => match v with | .vdict _ => true | _ => false)
  else if t = "array" then some (fun v => match v with | .vlist _ => true | _ => false)
  else if t = "boolean" then some (fun v => match v with | .vbool _ => true | _ => false)
  else if t = "dataframe" then some (fun v => match v with | .vdf _ => true | _ => false)
  else none

/-- The message of a raised error (`str(exc)`). -/
def PyError.msg : PyError → String
  | .schemaError m => m
  | .runtimeError m => m
  | .notImplementedError m => m
  | .keyError m => m
  | .typeError m => m
  | .valueError m => m
  | .fileNotFoundError m => m
  | .attributeError m => m

/-- One oneOf sub-error line:
`  option {i} ({sub_schema.get('type', 'unknown')}): {exc}`. -/
def oneOfLine (i : Nat) (alt : ASchema) (e : PyError) : String :=
  "  option " ++ natStr i ++ " (" ++ alt.typeTag ++ "): " ++ e.msg

/-- The aggregated all-branches-failed oneOf error message. -/
def oneOfFailMsg (path : String) (subErrors : List String) : String :=
  path ++ ": does not match any allowed schema in oneOf\n"
    ++ String.intercalate "\n" subErrors

/-- The scalar-tag check of analytic_schema._validate (skipped for a falsy
or unknown tag). -/
def aTypeStep (ty : Option String) (data : Value) (path : String) :
    Except PyError Unit :=
  match ty with
  | some t =>
      if t != "" then
        match aTypeMatch t with
        | some pred =>
            if pred data then pure ()
            else throw (.schemaError ((if path = "" then "value" else path)
                  ++ ": expected " ++ t ++ ", got " ++ pyTypeName data))
        | none => pure ()
      else pure ()
  | none => pure ()

/-- The `enum` membership check of analytic_schema._validate. -/
def aEnumStep (en : Option (List Value)) (data : Value) (path : String) :
    Except PyError Unit :=
  match en with
  | some es =>
      if pyMem data es then pure ()
      else throw (.schemaError (path ++ ": \x27" ++ pyStr data
            ++ "\x27 not in allowed values " ++ pyRepr (.vlist es)))
  | none => pure ()

/-- The `format: date-time` check of analytic_schema._validate. -/
def aFormatStep (fo : Option String) (data : Value) (path : String) :
    Except PyError Unit :=
  if fo = some "date-time" ∧ ¬ isDatetime data then
    throw (.schemaError (path ++ ": \x27" ++ pyStr data
          ++ "\x27 is not a valid ISO-8601 date-time string"))
  else pure ()

/-- The object-level pre-checks of analytic_schema._validate: unexpected
fields under `additionalProperties: false`, then the `required` list. -/
def aObjChecks (propList : List (String × ASchema))
    (reqNames : Option (List String)) (addl : Option Bool)
    (kvs : List (String × Value)) (path : String) : Except PyError Unit := do
  if addl = some false then
    let unknown := (kvs.map (fun kv => kv.1)).filter
      (fun k => ¬ propList.any (fun p => p.1 = k))
    if unknown ≠ [] then
      throw (.schemaError (path ++ ": unexpected fields "
            ++ pyStrListRepr (sortStrs unknown)))
    else pure ()
  else pure ()
  let missing := (reqNames.getD []).filter (fun k => ¬ dictHas kvs k)
  if missing ≠ [] then
    throw (.schemaError (path ++ ": missing required fields "
          ++ pyStrListRepr (sortStrs missing)))
  else pure ()

mutual
/-- analytic_schema._validate: `type` (scalar tag), `enum`,
`format: date-time`, `oneOf` (first success short-circuits), then object
`properties`/`required`-list/`additionalProperties` when the tag is
`object`, else array `items` when it is `array`. -/
def avalidate (data : Value) (schema : ASchema) (path : String) :
    Except PyError Unit :=
  match schema with
  | .mk ty en fo oo props reqNames addl items => do
      aTypeStep ty data path
      aEnumStep en data path
      aFormatStep fo data path
      match oo with
      | some alts => aoneOf data alts 0 [] path
      | none => pure ()
      if ty = some "object" then
        match data with
        | .vdict kvs => do
            aObjChecks (props.getD []) reqNames addl kvs path
            avalidateProps kvs (props.getD []) path
        | _ =>
            throw (.schemaError (path ++ ": expected object, got "
                  ++ pyTypeName data))
      else if ty = some "array" then
        match items with
        | some isch =>
            (match data with
             | .vlist xs => avalidateItems xs isch path 0
             | _ => throw (.schemaError (path ++ ": expected array, got "
                     ++ pyTypeName data)))
        | none => pure ()
      else pure ()
  termination_by (sizeOf data, sizeOf schema)
  decreasing_by all_goals simp_wf <;> omega

/-- The oneOf loop: try branches in declared order, breaking on the first
success; collect one sub-error line per failed branch, and raise the
aggregate (tagged with the original path) when none matched. -/
def aoneOf (data : Value) (alts : List ASchema) (i : Nat)
    (subErrors : List String) (path : String) : Except PyError Unit :=
  match alts with
  | [] => throw (.schemaError (oneOfFailMsg path subErrors))
  | a :: rest =>
      match avalidate data a path with
      | .ok _ => pure ()
      | .error e => aoneOf data rest (i + 1) (subErrors ++ [oneOfLine i a e]) path
  termination_by (sizeOf data, sizeOf alts)
  decreasing_by all_goals simp_wf <;> omega

/-- Recursion into the present keys that have a declared property schema. -/
def avalidateProps (entries : List (String × Value))
    (props : List (String × ASchema)) (path : String) : Except PyError Unit :=
  match entries with
  | [] => pure ()
  | (k, v) :: rest => do
      match props.find? (fun p => p.1 = k) with
      | some p => avalidate v p.2 (childPath path k)
      | none => pure ()
      avalidateProps rest props path
  termination_by (sizeOf entries, 0)
  decreasing_by all_goals simp_wf <;> omega

/-- Recursion into array items with bracket-indexed paths. -/
def avalidateItems (xs : List Value) (isch : ASchema) (path : String)
    (idx : Nat) : Except PyError Unit :=
  match xs with
  | [] => pure ()
  | x :: rest => do
      avalidate x isch (path ++ "[" ++ natStr idx ++ "]")
      avalidateItems rest isch path (idx + 1)
  termination_by (sizeOf xs, 0)
  decreasing_by all_goals simp_wf <;> omega
end

/-! ## The generic document builder (contract_schema/document.py) -/

/-- ASCII upper-casing (`str.upper()`; non-ASCII is outside the model). -/
def asciiUpper (c : Char) : Char :=
  if 97 ≤ c.toNat ∧ c.toNat ≤ 122 then Char.ofNat (c.toNat - 32) else c

/-- `level.upper()`. -/
def strUpper (s : String) : String := ⟨s.toList.map asciiUpper⟩

/-- The ambient effects a build step observes: the wall clock (as the
ISO-8601 text `_now_iso()` returns, plus the same instant in microseconds
for datetime arithmetic), the generated uuid, user and host, the probed
execution environment, and the file system (path to contents). -/
structure Env where
  nowIso : String
  nowMicros : Int
  uuidStr : String
  user : String
  host : String
  pyVersion : String
  osStr : String
  libVersions : Value
  hardware : Value
  fs : String → Option String

/-- The `execution_environment` dict finalise captures. -/
def envDict (env : Env) : Value :=
  .vdict [("python_version", .vstr env.pyVersion),
          ("library_dependencies", env.libVersions),
          ("operating_system", .vstr env.osStr),
          ("username", .vstr env.user),
          ("hardware_specs", env.hardware)]

/-- A `Document` (a dict subclass): its entries, the schema it was tied to,
and the private `__finalised` flag. -/
structure Doc where
  fields : List (String × Value)
  schema : CSchema
  finalised : Bool

/-- Key membership in an association list (schema field tables). -/
def hasKey {α : Type} (l : List (String × α)) (k : String) : Bool :=
  l.any (fun kv => kv.1 = k)

/-- Document.__init__: store the caller's fields, then stamp
`initialization_dtg` with the current time; the document starts Open. -/
def docInit (schema : CSchema) (kwargs : List (String × Value)) (env : Env) : Doc :=
  ⟨dictSet kwargs "initialization_dtg" (.vstr env.nowIso), schema, false⟩

/-- Document.add_message: `NotImplementedError` when the schema has no
`messages` field; otherwise ensure the list exists and append the
timestamped entry.  The method does not consult the finalised flag. -/
def docAddMessage (env : Env) (d : Doc) (level text : String) :
    Doc × Option PyError :=
  if ¬ hasKey (d.schema.fields.getD []) "messages" then
    (d, some (.notImplementedError
      "This document\x27s schema does not support \x27messages\x27."))
  else
    let f1 := if dictHas d.fields "messages" then d.fields
              else dictSet d.fields "messages" (.vlist [])
    match dictGet f1 "messages" with
    | some (.vlist msgs) =>
        let entry : Value := .vdict
          [("timestamp", .vstr env.nowIso),
           ("level", .vstr (strUpper level)),
           ("text", .vstr text)]
        ({ d with fields := dictSet f1 "messages" (.vlist (msgs ++ [entry])) }, none)
    | _ => ({ d with fields := f1 },
            some (.attributeError "append"))

/-- `_maybe(field, value)`: write only if the schema declares the field and
the document does not already carry it. -/
def maybeSet (sf : List (String × CSchema)) (fields : List (String × Value))
    (name : String) (v : Value) : List (String × Value) :=
  if hasKey sf name ∧ ¬ dictHas fields name then dictSet fields name v else fields

/-- The `"0" * 64` placeholder hash. -/
def zeros64 : String := ⟨List.replicate 64 '0'⟩

/-- Steps 3 of finalise: the schema-gated run-metadata defaults
(`_maybe_set` writes only fields the schema declares and the document does
not yet carry). -/
def docMetaDefaults (sf : List (String × CSchema)) (env : Env) (initV : Value)
    (secs : Int) (f2 : List (String × Value)) : List (String × Value) :=
  let f3 := maybeSet sf f2 "run_id" (.vstr env.uuidStr)
  let f4 := maybeSet sf f3 "run_user" (.vstr env.user)
  let f5 := maybeSet sf f4 "run_host" (.vstr env.host)
  let f6 := maybeSet sf f5 "run_start_dtg" initV
  let f7 := maybeSet sf f6 "run_end_dtg" (.vstr env.nowIso)
  let f8 := maybeSet sf f7 "run_duration_seconds" (.vint secs)
  let f9 := maybeSet sf f8 "analytic_id" (.vstr "UNKNOWN")
  let f10 := maybeSet sf f9 "analytic_name" (.vstr "UNKNOWN")
  let f11 := maybeSet sf f10 "analytic_version" (.vstr "UNKNOWN")
  let isv := match (dictGet f11 "inputs").getD (.vdict []) with
    | .vdict ikvs => (dictGet ikvs "input_schema_version").getD (.vstr "UNKNOWN")
    | _ => .vstr "UNKNOWN"
  let f12 := maybeSet sf f11 "input_schema_version" isv
  maybeSet sf f12 "output_schema_version" (.vstr "UNKNOWN")

/-- Steps 5-6 of finalise: the schema-gated `input_hash` and
`findings_hash` stamps. -/
def docHashStamps (sf : List (String × CSchema))
    (f13 : List (String × Value)) : List (String × Value) :=
  let f14 :=
    if dictHas f13 "inputs" ∧ hasKey sf "input_hash" then
      dictSet f13 "input_hash"
        (.vstr (hashVal ((dictGet f13 "inputs").getD .vnull)))
    else f13
  if dictHas f14 "findings" ∧ hasKey sf "findings_hash" then
    dictSet f14 "findings_hash"
      (.vstr (hashVal ((dictGet f14 "findings").getD .vnull)))
  else f14

/-- Step 7 of finalise: the model-file hash, with every exception of the
chunked file read swallowed into the `"0" * 64` placeholder. -/
def docModelStamp (sf : List (String × CSchema)) (env : Env)
    (f15 : List (String × Value)) : List (String × Value) :=
  if hasKey sf "model_file_hash" ∧ ¬ dictHas f15 "model_file_hash" then
    let p1 := (dictGet f15 "model_file_path").getD .vnull
    let pathV := if pyTruthy p1 then p1
                 else (dictGet f15 "model_path").getD .vnull
    if ¬ pyTruthy pathV then dictSet f15 "model_file_hash" (.vstr zeros64)
    else
      match pathV with
      | .vstr p =>
          (match env.fs p with
           | some content =>
               dictSet f15 "model_file_hash" (.vstr (sha256hex content))
           | none => dictSet f15 "model_file_hash" (.vstr zeros64))
      | _ => dictSet f15 "model_file_hash" (.vstr zeros64)
  else f15

/-- Step 8 of finalise: the `execution_environment` default. -/
def docEnvStamp (sf : List (String × CSchema)) (env : Env)
    (f16 : List (String × Value)) : List (String × Value) :=
  if hasKey sf "execution_environment" then
    dictSetdefault f16 "execution_environment" (envDict env)
  else f16

/-- The closing step of Document.finalise: run the full-schema validation
over the accumulated fields; on failure return the error with the flag
still down, on success flip the flag. -/
def docFinaliseTail (d : Doc) (f17 : List (String × Value)) :
    Doc × Option PyError :=
  match cvalidate (.vdict f17) d.schema "root" with
  | .error e => ({ d with fields := f17 }, some e)
  | .ok _ => (⟨f17, d.schema, true⟩, none)

/-- The body of Document.finalise after the timestamps have parsed: the
runtime stamp, the schema-gated defaults and hash stamps, and the closing
validation. -/
def docFinaliseBody (env : Env) (d : Doc) (initV : Value)
    (f1 : List (String × Value)) (pi pe : IsoParts) : Doc × Option PyError :=
  let secs : Int := Int.tdiv (epochMicros pe - epochMicros pi) 1000000
  let sf := d.schema.fields.getD []
  let f2 := dictSet f1 "total_runtime_seconds" (.vint secs)
  docFinaliseTail d (docEnvStamp sf env
    (docModelStamp sf env (docHashStamps sf (docMetaDefaults sf env initV secs f2))))

/-- Document.finalise.  Mutations made before a raise survive it (the
returned state), and the finalised flag is assigned only after the final
validation returns.  The datetime work models the strict ISO-8601 shapes
`_now_iso` produces; `int(...)` truncates toward zero, hence `Int.tdiv`.
In the model-hash block every exception (`FileNotFoundError` from a missing
file, `TypeError` from a non-string path) is swallowed into the `"0" * 64`
placeholder, exactly as the `except Exception` there does. -/
def docFinalise (env : Env) (d : Doc) : Doc × Option PyError :=
  if d.finalised then (d, none)
  else
    let f1 := dictSet d.fields "finalization_dtg" (.vstr env.nowIso)
    match dictGet f1 "initialization_dtg" with
    | none => ({ d with fields := f1 }, some (.keyError "\x27initialization_dtg\x27"))
    | some initV =>
      match initV with
      | .vstr initS =>
        match parseIsoParts initS, parseIsoParts env.nowIso with
        | some pi, some pe => docFinaliseBody env d initV f1 pi pe
        | _, _ =>
            ({ d with fields := f1 },
             some (.valueError "Invalid isoformat string"))
      | _ =>
          ({ d with fields := f1 },
           some (.attributeError
             ("\x27" ++ pyTypeName initV ++ "\x27 object has no attribute \x27replace\x27")))

/-- Document.save: refuses with `RuntimeError` while the document is Open;
once finalised it writes `json.dumps(self, indent=2)` — the model returns
the dict that is serialized (text rendering elided). -/
def docSave (d : Doc) : Except PyError Value :=
  if ¬ d.finalised then
    .error (.runtimeError "Document must be finalised() before saving.")
  else .ok (.vdict d.fields)

/-! ## The standalone OutputDoc builder (analytic_schema.py) -/

/-- An `OutputDoc`: its entries plus the private `__start_time` (kept both
as the ISO text `isoformat(timespec="seconds")` renders and in
microseconds for the duration subtraction).  The class has no finalised
flag at all. -/
structure ODoc where
  fields : List (String × Value)
  startIso : String
  startMicros : Int

/-- OutputDoc.__init__: `input_data_hash` must be a string (else
`TypeError`); it is stored, the start time recorded, and a `messages` list
guaranteed. -/
def odocInit (kwargs : List (String × Value)) (inputDataHash : Value)
    (startIso : String) (startMicros : Int) : Except PyError ODoc :=
  match inputDataHash with
  | .vstr h =>
      .ok ⟨dictSetdefault (dictSet kwargs "input_data_hash" (.vstr h))
             "messages" (.vlist []), startIso, startMicros⟩
  | _ => .error (.typeError "input_data_hash must be a hex-encoded string.")

/-- The closed severity set of `_Level`. -/
def levelNames : List String := ["DEBUG", "INFO", "WARN", "ERROR", "FATAL"]

/-- OutputDoc.add_message with a string level: normalise via
`_Level[level.upper()]` (unknown names raise `ValueError`), then append the
timestamped entry.  No finalised check exists on this class either. -/
def odocAddMessage (env : Env) (d : ODoc) (level text : String) :
    ODoc × Option PyError :=
  if ¬ levelNames.contains (strUpper level) then
    (d, some (.valueError ("Invalid log level \x27" ++ level
        ++ "\x27. Allowed: " ++ String.intercalate ", " levelNames)))
  else
    match dictGet d.fields "messages" with
    | some (.vlist msgs) =>
        let entry : Value := .vdict
          [("timestamp", .vstr env.nowIso),
           ("level", .vstr (strUpper level)),
           ("text", .vstr text)]
        ({ d with fields := dictSet d.fields "messages" (.vlist (msgs ++ [entry])) }, none)
    | _ => (d, some (.attributeError "append"))

/-- A run of `self.setdefault(k, v)` calls, one per listed pair. -/
def setdefaults (kvs : List (String × Value)) (pairs : List (String × Value)) :
    List (String × Value) :=
  pairs.foldl (fun acc kv => dictSetdefault acc kv.1 kv.2) kvs

/-- The derivation stage of OutputDoc.finalise: the six run-metadata
`setdefault`s, the unconditional `input_hash` stamp, and the `findings`
default; also returns the `inputs` value the hash was taken over. -/
def odocDerive (env : Env) (d : ODoc) : List (String × Value) × Value :=
  let f6 := setdefaults d.fields
    [("run_id", .vstr env.uuidStr), ("run_user", .vstr env.user),
     ("run_host", .vstr env.host), ("run_start_dtg", .vstr d.startIso),
     ("run_end_dtg", .vstr env.nowIso),
     ("run_duration_seconds", .vint (env.nowMicros - d.startMicros))]
  let inputsV := (dictGet f6 "inputs").getD .vnull
  (dictSetdefault (dictSet f6 "input_hash" (.vstr (hashVal inputsV)))
     "findings" (.vlist []), inputsV)

/-- The closing stage of OutputDoc.finalise: the unconditional
`findings_hash` stamp and the version/status `setdefault`s. -/
def odocFinish (fields : List (String × Value)) (inputsV : Value)
    (findings : List Value) : List (String × Value) :=
  setdefaults (dictSet fields "findings_hash" (.vstr (hashVal (.vlist findings))))
    [("input_schema_version",
        match inputsV with
        | .vdict ikvs => (dictGet ikvs "input_schema_version").getD (.vstr "UNKNOWN")
        | _ => .vstr "UNKNOWN"),
     ("output_schema_version", .vstr "UNKNOWN"), ("analytic_id", .vstr "UNKNOWN"),
     ("analytic_name", .vstr "UNKNOWN"), ("analytic_version", .vstr "UNKNOWN"),
     ("status", .vstr "UNKNOWN"), ("exit_code", .vint (-1)),
     ("records_processed", .vint 0)]

/-- OutputDoc.finalise against a given output schema (the
analytic_schema.json contract is loaded at run time and is not part of this
repository snapshot, so the schema tree is a parameter): requires an
`inputs` dict; fills run metadata via `setdefault`; stamps `input_hash` and
`findings_hash` unconditionally; fills status placeholders; and validates.
`run_duration_seconds` is a float in the source (rounded to six decimals) —
the model carries the same instant difference as microseconds.  The class
has no finalised flag, so nothing here is guarded by one. -/
def odocFinalise (env : Env) (outSchema : ASchema) (d : ODoc) :
    ODoc × Option PyError :=
  if !(match dictGet d.fields "inputs" with
        | some (.vdict _) => true
        | _ => false) then
    (d, some (.schemaError "OutputDoc.finalise(): missing or invalid \x27inputs\x27 dict."))
  else
    match dictGet (odocDerive env d).1 "findings" with
    | some (.vlist findings) =>
        (match avalidate
            (.vdict (odocFinish (odocDerive env d).1 (odocDerive env d).2 findings))
            outSchema "OutputDoc" with
         | .error e =>
             ({ d with fields := odocFinish (odocDerive env d).1 (odocDerive env d).2 findings },
              some e)
         | .ok _ =>
             ({ d with fields := odocFinish (odocDerive env d).1 (odocDerive env d).2 findings },
              none))
    | _ => ({ d with fields := (odocDerive env d).1 },
            some (.schemaError "\x27findings\x27 must be a list."))

/-- OutputDoc.save: refuses with `RuntimeError` when `self.get("run_id")`
is falsy — that is the only guard; with any truthy `run_id` (finalised or
not) it writes `_to_serialisable()` (every value through `_json_safe`). -/
def odocSave (d : ODoc) : Except PyError Value :=
  if ¬ pyTruthy ((dictGet d.fields "run_id").getD .vnull) then
    .error (.runtimeError
      "OutputDoc.save() called before finalise(); document could be incomplete.")
  else .ok (jsonSafe (.vdict d.fields))

/-! ## A model of `json.loads` (the dereference step of
Contract.parse_and_validate_input) -/

/-- JSON whitespace. -/
def jIsWs (c : Char) : Bool := c = ' ' || c = '\t' || c = '\n' || c = '\r'

/-- Drop leading JSON whitespace. -/
def jSkipWs : List Char → List Char
  | c :: cs => if jIsWs c then jSkipWs cs else c :: cs
  | [] => []

/-- Hex digit value. -/
def jHexVal (c : Char) : Option Nat :=
  if 48 ≤ c.toNat ∧ c.toNat ≤ 57 then some (c.toNat - 48)
  else if 97 ≤ c.toNat ∧ c.toNat ≤ 102 then some (c.toNat - 87)
  else if 65 ≤ c.toNat ∧ c.toNat ≤ 70 then some (c.toNat - 55)
  else none

/-- String body after the opening quote: literal characters (raw control
characters are rejected, as the strict loader does), the short escapes, and
`\uXXXX` (surrogate-pair joining is outside the model). -/
def jStr (acc : List Char) : List Char → Option (String × List Char)
  | '"' :: rest => some (⟨acc.reverse⟩, rest)
  | '\\' :: e :: rest =>
      if e = 'u' then
        match rest with
        | a :: b :: c :: d :: r2 =>
            (match jHexVal a, jHexVal b, jHexVal c, jHexVal d with
             | some va, some vb, some vc, some vd =>
                 jStr (Char.ofNat (((va * 16 + vb) * 16 + vc) * 16 + vd) :: acc) r2
             | _, _, _, _ => none)
        | _ => none
      else if e = '"' then jStr ('"' :: acc) rest
      else if e = '\\' then jStr ('\\' :: acc) rest
      else if e = '/' then jStr ('/' :: acc) rest
      else if e = 'b' then jStr (Char.ofNat 8 :: acc) rest
      else if e = 'f' then jStr (Char.ofNat 12 :: acc) rest
      else if e = 'n' then jStr ('\n' :: acc) rest
      else if e = 'r' then jStr ('\r' :: acc) rest
      else if e = 't' then jStr ('\t' :: acc) rest
      else none
  | c :: rest => if c.toNat < 32 then none else jStr (c :: acc) rest
  | [] => none

/-- Digit run. -/
def jDigits : List Char → List Char × List Char
  | c :: cs =>
      if 48 ≤ c.toNat ∧ c.toNat ≤ 57 then
        let (ds, r) := jDigits cs
        (c :: ds, r)
      else ([], c :: cs)
  | [] => ([], [])

/-- A JSON number: `vint` when it is a plain integer, `vfloat` carrying the
matched text when a fraction or exponent is present. -/
def jNum (cs : List Char) : Option (Value × List Char) :=
  let (neg, cs1) := match cs with
    | '-' :: r => (true, r)
    | _ => (false, cs)
  match jDigits cs1 with
  | ([], _) => none
  | (intDs, cs2) =>
      if intDs.length > 1 ∧ intDs.headD '0' = '0' then none
      else
        let (fracDs, cs3) := match cs2 with
          | '.' :: r => (match jDigits r with
                         | ([], _) => ([], cs2)
                         | (ds, r2) => ('.' :: ds, r2))
          | _ => ([], cs2)
        let (expDs, cs4) := match cs3 with
          | 'e' :: '+' :: r => (match jDigits r with
                                | ([], _) => ([], cs3)
                                | (ds, r2) => ('e' :: '+' :: ds, r2))
          | 'e' :: '-' :: r => (match jDigits r with
                                | ([], _) => ([], cs3)
                                | (ds, r2) => ('e' :: '-' :: ds, r2))
          | 'e' :: r => (match jDigits r with
                         | ([], _) => ([], cs3)
                         | (ds, r2) => ('e' :: ds, r2))
          | 'E' :: r => (match jDigits r with
                         | ([], _) => ([], cs3)
                         | (ds, r2) => ('E' :: ds, r2))
          | _ => ([], cs3)
        if fracDs.isEmpty ∧ expDs.isEmpty then
          let n : Int := (intDs.foldl (fun acc c => acc * 10 + (c.toNat - 48)) 0 : Nat)
          some (.vint (if neg then -n else n), cs2)
        else
          some (.vfloat ⟨(if neg then ['-'] else []) ++ intDs ++ fracDs ++ expDs⟩, cs4)

mutual
/-- One JSON value (fueled recursion; the fuel is seeded above the input
length, so it never runs out on a complete parse). -/
def jVal : Nat → List Char → Option (Value × List Char)
  | 0, _ => none
  | fuel + 1, cs =>
      match jSkipWs cs with
      | 'n' :: 'u' :: 'l' :: 'l' :: r => some (.vnull, r)
      | 't' :: 'r' :: 'u' :: 'e' :: r => some (.vbool true, r)
      | 'f' :: 'a' :: 'l' :: 's' :: 'e' :: r => some (.vbool false, r)
      | '"' :: r =>
          (match jStr [] r with
           | some (str, r2) => some (.vstr str, r2)
           | none => none)
      | '[' :: r =>
          (match jSkipWs r with
           | ']' :: r2 => some (.vlist [], r2)
           | r2 =>
             match jArrItems fuel r2 with
             | some (xs, r3) => some (.vlist xs, r3)
             | none => none)
      | '\x7b' :: r =>
          (match jSkipWs r with
           | '\x7d' :: r2 => some (.vdict [], r2)
           | r2 =>
             match jObjMembers fuel r2 with
             | some (kvs, r3) =>
                 some (.vdict (kvs.foldl (fun acc kv => dictSet acc kv.1 kv.2) []), r3)
             | none => none)
      | c :: r =>
          if c = '-' ∨ (48 ≤ c.toNat ∧ c.toNat ≤ 57) then jNum (c :: r)
          else none
      | [] => none

/-- One-or-more comma-separated array items. -/
def jArrItems : Nat → List Char → Option (List Value × List Char)
  | 0, _ => none
  | fuel + 1, cs =>
      match jVal fuel cs with
      | none => none
      | some (v, r) =>
          match jSkipWs r with
          | ',' :: r2 =>
              (match jArrItems fuel (jSkipWs r2) with
               | some (vs, r3) => some (v :: vs, r3)
               | none => none)
          | ']' :: r2 => some ([v], r2)
          | _ => none

/-- One-or-more comma-separated object members (duplicate keys collapse
last-wins at dict construction, as `json.loads` does). -/
def jObjMembers : Nat → List Char → Option (List (String × Value) × List Char)
  | 0, _ => none
  | fuel + 1, cs =>
      match jSkipWs cs with
      | '"' :: r =>
          (match jStr [] r with
           | none => none
           | some (key, r1) =>
               match jSkipWs r1 with
               | ':' :: r2 =>
                   (match jVal fuel (jSkipWs r2) with
                    | none => none
                    | some (v, r3) =>
                        match jSkipWs r3 with
                        | ',' :: r4 =>
                            (match jObjMembers fuel (jSkipWs r4) with
                             | some (kvs, r5) => some ((key, v) :: kvs, r5)
                             | none => none)
                        | '\x7d' :: r4 => some ([(key, v)], r4)
                        | _ => none)
               | _ => none)
      | _ => none
end

/-- `json.loads` on a complete document: parse one value, then require only
whitespace to remain.  Python floats parse to `vfloat`. -/
def jloads (s : String) : Option Value :=
  match jVal (s.length + 1) s.toList with
  | some (v, rest) => if (jSkipWs rest).isEmpty then some v else none
  | none => none

/-! ## Contract.parse_and_validate_input (contract.py) -/

/-- The dereference applied to each string value: an existing file's JSON
contents, else the string parsed as a JSON literal; parse failures and
missing files leave the value untouched. -/
def derefValue (fs : String → Option String) (v : Value) : Value :=
  match v with
  | .vstr str =>
      (match fs str with
       | some content =>
           (match jloads content with
            | some parsed => parsed
            | none => v)
       | none =>
           (match jloads str with
            | some parsed => parsed
            | none => v))
  | _ => v

/-- Contract.parse_and_validate_input on an already-dict source (the
`Mapping` branch of parser.parse_input, which copies it): dereference
JSON-file strings, inject schema defaults for absent fields, deep-validate,
and return the mapping.  Non-mapping sources (CLI strings, file paths) go
through argparse and are outside this model. -/
def parseAndValidateInput (fs : String → Option String) (ischema : CSchema)
    (source : Value) : Except PyError Value :=
  match ischema with
  | .mk none none none none none none none none false none =>
      .error (.notImplementedError
        "This contract does not define an input schema for parsing.")
  | _ =>
    match source with
    | .vdict kvs =>
        let raw := kvs.map (fun kv => (kv.1, derefValue fs kv.2))
        let withDefaults := (ischema.fields.getD []).foldl
          (fun acc nf =>
            match nf.2.default with
            | some dv => if dictHas acc nf.1 then acc else acc ++ [(nf.1, dv)]
            | none => acc) raw
        match cvalidate (.vdict withDefaults) ischema "root" with
        | .error e => .error e
        | .ok _ => .ok (.vdict withDefaults)
    | _ => .error (.typeError "parse_and_validate_input source kind not modelled")

/-! ## Concrete fixtures used by witnesses and counterexamples -/

/-- A construction-time environment (clock at 2025-01-01T00:00:00Z). -/
def envInit0 : Env :=
  ⟨"2025-01-01T00:00:00+00:00", 0, "u0", "usr", "hst", "3.11.0", "Linux 6.1",
   .vdict [], .vdict [], fun _ => none⟩

/-- A finalise-time environment five seconds later, with an empty file
system. -/
def envFin5 : Env :=
  ⟨"2025-01-01T00:00:05+00:00", 5000000, "u1", "usr", "hst", "3.11.0", "Linux 6.1",
   .vdict [], .vdict [], fun _ => none⟩

/-- A schema requiring a string field `x` (and declaring nothing else). -/
def schemaReqX : CSchema :=
  .mk none none none none
    (some [("x", .mk (some (.many ["string"])) none none none none none none none true none)])
    none none none false none

/-- The field state `docInit … envInit0` then `docFinalise envFin5` reaches
just before the final validation. -/
def fieldsAfterFin : List (String × Value) :=
  [("initialization_dtg", .vstr "2025-01-01T00:00:00+00:00"),
   ("finalization_dtg", .vstr "2025-01-01T00:00:05+00:00"),
   ("total_runtime_seconds", .vint 5)]

/-- The model-manifest field table: optional string `model_file_hash` and
`model_file_path`. -/
def sfModel : List (String × CSchema) :=
  [("model_file_hash", .mk (some (.many ["string"])) none none none none none none none false none),
   ("model_file_path", .mk (some (.many ["string"])) none none none none none none none false none)]

/-- A schema declaring (optional) `model_file_hash` and `model_file_path`
fields, as the ML-model manifest contract does. -/
def schemaModel : CSchema :=
  .mk none none none none (some sfModel) none none none false none

/-- An input schema with a required string-or-integer field `f`. -/
def schemaF : CSchema :=
  .mk none none none none
    (some [("f", .mk (some (.many ["string", "integer"])) none none none none none none none true none)])
    none none none false none

/-- An input schema shaped like the analytic contract's interesting core:
a required string field and an optional defaulted `verbosity`. -/
def schemaSV : CSchema :=
  .mk none none none none
    (some [("start_dtg", .mk (some (.many ["string"])) none none none none none none none true none),
           ("verbosity", .mk (some (.many ["string"])) none none none none none none none false (some (.vstr "INFO")))])
    none none none false none

/-- An all-permissive analytic schema node (no constraints). -/
def aschemaFree : ASchema := .mk none none none none none none none none

/-- An analytic schema node carrying only a `oneOf` list. -/
def oneOfOnly (alts : List ASchema) : ASchema :=
  .mk none none none (some alts) none none none none

/-- The per-alternative failure lines the oneOf loop would collect,
recomputed from each alternative independently (branches that validate
contribute nothing; under an all-fail hypothesis every branch
contributes its line in declared order). -/
def subErrLines (data : Value) (path : String) :
    List ASchema → Nat → List String
  | [], _ => []
  | a :: rest, i =>
      (match avalidate data a path with
       | .error e => [oneOfLine i a e]
       | .ok _ => []) ++ subErrLines data path rest (i + 1)

/-- Every entry of `kvs` at key `k` carries exactly `v`, and the key is
present (the state a `dictSet` leaves behind). -/
def keyVal (kvs : List (String × Value)) (k : String) (v : Value) : Prop :=
  dictHas kvs k = true ∧ ∀ kv ∈ kvs, kv.1 = k → kv.2 = v

/-- A Document already carrying its finalised flag (a successful
`Document.finalise` has run). -/
def docC3 : Doc := ⟨[("x", .vstr "v")], schemaReqX, true⟩

/-- An OutputDoc as built at construction time, carrying an `inputs`
dict. -/
def odC3 : ODoc := ⟨[("inputs", .vdict [])], "2025-01-01T00:00:00+00:00", 0⟩

/-- The document a first successful `OutputDoc.finalise` of `odC3` leaves
behind: both stages applied to its fields, timestamps unchanged. -/
def odC3fin : ODoc :=
  ⟨odocFinish (odocDerive envFin5 odC3).1 (odocDerive envFin5 odC3).2 [],
   "2025-01-01T00:00:00+00:00", 0⟩

/-- The field state `docFinalise envFin5` reaches on a document built from
`model_file_path` kwargs under `schemaModel`, just before the final
validation: the missing file at that path was zero-filled. -/
def fieldsC5pre : List (String × Value) :=
  [("model_file_path", .vstr "/missing/model.bin"),
   ("initialization_dtg", .vstr "2025-01-01T00:00:00+00:00"),
   ("finalization_dtg", .vstr "2025-01-01T00:00:05+00:00"),
   ("total_runtime_seconds", .vint 5)]

/-- As `fieldsC5pre` after the model stamp: the missing file at
`model_file_path` was zero-filled. -/
def fieldsC5 : List (String × Value) :=
  [("model_file_path", .vstr "/missing/model.bin"),
   ("initialization_dtg", .vstr "2025-01-01T00:00:00+00:00"),
   ("finalization_dtg", .vstr "2025-01-01T00:00:05+00:00"),
   ("total_runtime_seconds", .vint 5),
   ("model_file_hash", .vstr zeros64)]

/-- An analytic schema node declaring only `type: integer`. -/
def aIntNode : ASchema := .mk (some "integer") none none none none none none none

/-- An analytic schema node declaring only `type: string`. -/
def aStrNode : ASchema := .mk (some "string") none none none none none none none

/-- A contract schema node declaring only `type: integer`. -/
def cIntNode : CSchema :=
  .mk (some (.many ["integer"])) none none none none none none none false none

/-- A contract schema node declaring only a `oneOf` list (a construct
validator.validate never reads). -/
def cOneOfOnly (alts : List CSchema) : CSchema :=
  .mk none none none (some alts) none none none none false none

/-! ## A canonical fragment of values and a decoder for their canonical
JSON, used to settle hash sensitivity. -/

/-- An ASCII decimal digit. -/
def isDigit (c : Char) : Bool := 48 ≤ c.toNat && c.toNat ≤ 57

/-- The number a most-significant-first digit run denotes. -/
def digitsVal (ds : List Char) : Nat :=
  ds.foldl (fun a c => 10 * a + (c.toNat - 48)) 0

/-- Split a leading digit run off a character stream. -/
def digitSpan : List Char → List Char × List Char
  | [] => ([], [])
  | c :: r =>
      if isDigit c then
        match digitSpan r with
        | (ds, rest) => (c :: ds, rest)
      else ([], c :: r)

/-- The stream does not continue a decimal number. -/
def noDigitStart : List Char → Bool
  | [] => true
  | c :: _ => !(isDigit c)

/-- Read a plain (escape-free) string body up to its closing quote. -/
def strSpan : List Char → Option (List Char × List Char)
  | [] => none
  | c :: r =>
      if c = '"' then some ([], r)
      else
        match strSpan r with
        | some (cs, rest) => some (c :: cs, rest)
        | none => none

/-- A character the json encoder emits literally: printable ASCII that is
neither the quote nor the backslash. -/
def plainChar (c : Char) : Bool :=
  (32 ≤ c.toNat && c.toNat ≤ 126) && !(c = '"') && !(c = '\\')

/-- A string whose canonical encoding is escape-free. -/
def plainStr (s : String) : Bool := s.toList.all plainChar

/-- Adjacent keys strictly increasing in code-point order (the shape
`sort_keys=True` leaves behind when all keys are distinct). -/
def keysStrictSorted : List (String × Value) → Bool
  | [] => true
  | [_] => true
  | a :: b :: r =>
      (strLe a.1 b.1 && !(strLe b.1 a.1)) && keysStrictSorted (b :: r)

mutual
/-- The canonical fragment: null, booleans, integers, escape-free strings,
lists of canonical values, and dicts of canonical values under escape-free,
strictly key-sorted keys.  Tuples (coalesced onto lists by `_json_safe`),
DataFrames and floats are outside it. -/
def canonV : Value → Bool
  | .vnull => true
  | .vbool _ => true
  | .vint _ => true
  | .vstr s => plainStr s
  | .vlist xs => canonVList xs
  | .vdict kvs => keysStrictSorted kvs && canonVPairs kvs
  | .vtuple _ => false
  | .vdf _ => false
  | .vfloat _ => false

/-- `canonV` over list elements. -/
def canonVList : List Value → Bool
  | [] => true
  | x :: xs => canonV x && canonVList xs

/-- Escape-free keys and canonical values over dict entries. -/
def canonVPairs : List (String × Value) → Bool
  | [] => true
  | (k, v) :: rest => plainStr k && canonV v && canonVPairs rest
end

/-- Consume one expected closing/separator character. -/
def expectClose (c : Char) : List Char → Option (List Char)
  | [] => none
  | d :: r => if d = c then some r else none

/-- Consume three expected literal characters. -/
def expect3 (a b c : Char) : List Char → Option (List Char)
  | x :: y :: z :: r => if x = a ∧ y = b ∧ z = c then some r else none
  | _ => none

/-- Consume four expected literal characters. -/
def expect4 (a b c d : Char) : List Char → Option (List Char)
  | x :: y :: z :: w :: r => if x = a ∧ y = b ∧ z = c ∧ w = d then some r else none
  | _ => none

mutual
/-- A decoder for the canonical JSON the encoder emits on the canonical
fragment (fueled; the round-trip theorem seeds the fuel above the value
size).  It is the measuring stick for injectivity: a stream decodes to at
most one value. -/
def decV : Nat → List Char → Option (Value × List Char)
  | 0, _ => none
  | _ + 1, [] => none
  | fuel + 1, c :: r =>
      if c = 'n' then (expect3 'u' 'l' 'l' r).map fun r2 => (Value.vnull, r2)
      else if c = 't' then (expect3 'r' 'u' 'e' r).map fun r2 => (Value.vbool true, r2)
      else if c = 'f' then (expect4 'a' 'l' 's' 'e' r).map fun r2 => (Value.vbool false, r2)
      else if c = '"' then (strSpan r).map fun p => (Value.vstr ⟨p.1⟩, p.2)
      else if c = '[' then
        match r with
        | [] => none
        | c2 :: r2 =>
            if c2 = ']' then some (.vlist [], r2)
            else
              (decItems fuel (c2 :: r2)).bind fun xsr =>
                (expectClose ']' xsr.2).map fun r3 => (.vlist xsr.1, r3)
      else if c = '\x7b' then
        match r with
        | [] => none
        | c2 :: r2 =>
            if c2 = '\x7d' then some (.vdict [], r2)
            else
              (decMembers fuel (c2 :: r2)).bind fun mr =>
                (expectClose '\x7d' mr.2).map fun r3 => (.vdict mr.1, r3)
      else if c = '-' then
        match digitSpan r with
        | ([], _) => none
        | (ds, r2) => some (.vint (-(digitsVal ds : Int)), r2)
      else if isDigit c then
        match digitSpan (c :: r) with
        | (ds, r2) => some (.vint ((digitsVal ds : Int)), r2)
      else none

/-- One-or-more comma-separated items of a non-empty array. -/
def decItems : Nat → List Char → Option (List Value × List Char)
  | 0, _ => none
  | fuel + 1, cs =>
      (decV fuel cs).bind fun xr =>
        match xr.2 with
        | [] => some ([xr.1], [])
        | c :: r2 =>
            if c = ',' then
              (decItems fuel r2).map fun ysr => (xr.1 :: ysr.1, ysr.2)
            else some ([xr.1], c :: r2)

/-- One-or-more comma-separated `"key":value` members of a non-empty
object. -/
def decMembers : Nat → List Char → Option (List (String × Value) × List Char)
  | 0, _ => none
  | _ + 1, [] => none
  | fuel + 1, c :: r =>
      if c = '"' then
        (strSpan r).bind fun kp =>
          (expectClose ':' kp.2).bind fun r2 =>
            (decV fuel r2).bind fun vr =>
              match vr.2 with
              | [] => some ([(⟨kp.1⟩, vr.1)], [])
              | c2 :: r4 =>
                  if c2 = ',' then
                    (decMembers fuel r4).map fun mr => ((⟨kp.1⟩, vr.1) :: mr.1, mr.2)
                  else some ([(⟨kp.1⟩, vr.1)], c2 :: r4)
      else none
end

/-! # Theorems

The claim theorems (with their witnesses and counterexamples) follow.
Helper lemmas are shared; each claim's own theorem is used only by its own
witness. -/

/-- C10: for a schema node whose declared type set is `{integer}` (or
`{number}`), the unified validator accepts every boolean value without
raising a type error — `utils._TYPE_MAP` sends `integer` to Python's `int`,
and `bool` is an `int` subclass, so the isinstance check holds of booleans
(and the schemas below impose nothing else, so validation succeeds
outright). -/
theorem bool_passes_integer_type_check :
    ∀ b : Bool,
      typeMatches "integer" (.vbool b) = true ∧
      typeMatches "number" (.vbool b) = true ∧
      ∀ path : String,
        cvalidate (.vbool b)
          (.mk (some (.many ["integer"])) none none none none none none none false none)
          path = .ok () ∧
        cvalidate (.vbool b)
          (.mk (some (.many ["number"])) none none none none none none none false none)
          path = .ok () := by
  intro b
  refine ⟨by cases b <;> rfl, by cases b <;> rfl, fun path => ⟨?_, ?_⟩⟩ <;>
  · cases b <;>
    · rw [cvalidate]
      simp [inferType, CSchema.type, CSchema.fields, CSchema.enum, CSchema.format,
        CSchema.addl, typeStep, enumStep, formatStep, itemSchemaOf, CSchema.items,
        CSchema.subtype, TypeSpec.truthy, TypeSpec.allowed, typeMatches]
      all_goals first
        | rfl
        | (intros; simp_all)

/-- C6 (amended, Document half): `Document.save` raises `RuntimeError` — a
caller-usage-order error distinct from `SchemaError` — for every Open
document, and succeeds on every Finalised document. -/
theorem document_save_requires_finalise :
    ∀ d : Doc,
      (d.finalised = false →
        docSave d = .error (.runtimeError "Document must be finalised() before saving.")) ∧
      (d.finalised = true → docSave d = .ok (.vdict d.fields)) := by
  intro d
  constructor <;> intro h <;> simp [docSave, h]

/-- Witness for `document_save_requires_finalise` at concrete Open and
Finalised documents. -/
theorem document_save_requires_finalise_witness :
    docSave ⟨[], CSchema.empty, false⟩
      = .error (.runtimeError "Document must be finalised() before saving.") ∧
    docSave ⟨[("a", .vint 1)], CSchema.empty, true⟩ = .ok (.vdict [("a", .vint 1)]) :=
  ⟨(document_save_requires_finalise ⟨[], CSchema.empty, false⟩).1 rfl,
   (document_save_requires_finalise ⟨[("a", .vint 1)], CSchema.empty, true⟩).2 rfl⟩

/-- C6 counterexample: `OutputDoc.save` only checks that `run_id` is
truthy, so a freshly constructed (never finalised) OutputDoc whose caller
happened to supply a `run_id` saves successfully — refuting "save succeeds
only when the document is Finalized" for this builder. -/
theorem outputdoc_save_open_counterexample :
    odocInit [("run_id", .vstr "r")] (.vstr "ab") "2025-01-01T00:00:00+00:00" 0 =
      .ok ⟨[("run_id", .vstr "r"), ("input_data_hash", .vstr "ab"),
            ("messages", .vlist [])], "2025-01-01T00:00:00+00:00", 0⟩ ∧
    odocSave ⟨[("run_id", .vstr "r"), ("input_data_hash", .vstr "ab"),
               ("messages", .vlist [])], "2025-01-01T00:00:00+00:00", 0⟩ =
      .ok (.vdict [("run_id", .vstr "r"), ("input_data_hash", .vstr "ab"),
                   ("messages", .vlist [])]) := by
  constructor
  · rfl
  · rfl

/-- C8 (code bug): on an already-Finalised document whose schema supports
messages, `add_message` is not a no-op — it appends to the message log
(the method never consults the finalised flag), contradicting both the
spec and the repository's own test
`test_add_message_after_finalize_is_ignored`. -/
theorem add_message_after_finalise_appends :
    (docAddMessage
        ⟨"2025-01-01T00:00:09+00:00", 9000000, "uid", "user", "host",
         "3.11.0", "Linux 6.1", .vdict [], .vdict [], fun _ => none⟩
        ⟨[("messages", .vlist [.vdict [("timestamp", .vstr "2025-01-01T00:00:01+00:00"),
                                       ("level", .vstr "INFO"),
                                       ("text", .vstr "first message")]])],
         .mk none none none none (some [("messages", CSchema.empty)]) none none none false none,
         true⟩
        "INFO" "too late").2 = none ∧
    (docAddMessage
        ⟨"2025-01-01T00:00:09+00:00", 9000000, "uid", "user", "host",
         "3.11.0", "Linux 6.1", .vdict [], .vdict [], fun _ => none⟩
        ⟨[("messages", .vlist [.vdict [("timestamp", .vstr "2025-01-01T00:00:01+00:00"),
                                       ("level", .vstr "INFO"),
                                       ("text", .vstr "first message")]])],
         .mk none none none none (some [("messages", CSchema.empty)]) none none none false none,
         true⟩
        "INFO" "too late").1.fields =
      [("messages", .vlist
        [.vdict [("timestamp", .vstr "2025-01-01T00:00:01+00:00"),
                 ("level", .vstr "INFO"), ("text", .vstr "first message")],
         .vdict [("timestamp", .vstr "2025-01-01T00:00:09+00:00"),
                 ("level", .vstr "INFO"), ("text", .vstr "too late")]])] ∧
    [("messages", Value.vlist
        [.vdict [("timestamp", .vstr "2025-01-01T00:00:01+00:00"),
                 ("level", .vstr "INFO"), ("text", .vstr "first message")],
         .vdict [("timestamp", .vstr "2025-01-01T00:00:09+00:00"),
                 ("level", .vstr "INFO"), ("text", .vstr "too late")]])] ≠
      [("messages", Value.vlist
        [.vdict [("timestamp", .vstr "2025-01-01T00:00:01+00:00"),
                 ("level", .vstr "INFO"), ("text", .vstr "first message")]])] := by
  refine ⟨?_, ?_, by decide⟩ <;> rfl

/-- Finalise on an Open document either succeeds and sets the flag, or
fails and leaves the flag unset — the flag assignment is the very last
effect, after the full-schema validation. -/
theorem docFinalise_flag (env : Env) (d : Doc) (h : d.finalised = false) :
    ((docFinalise env d).2 = none ∧ (docFinalise env d).1.finalised = true) ∨
    ((∃ e, (docFinalise env d).2 = some e) ∧ (docFinalise env d).1.finalised = false) := by
  simp only [docFinalise, docFinaliseBody, docFinaliseTail, h, Bool.false_eq_true,
    if_false]
  repeat' split
  all_goals
    first
      | exact Or.inl ⟨rfl, rfl⟩
      | exact Or.inr ⟨⟨_, rfl⟩, rfl⟩

/-- C2: whenever `finalise` raises — in particular when the final
full-schema validation (its last step) raises — the error is propagated to
the caller and the document remains Open (`__finalised` stays `False`);
the flag becomes `True` only when no step raised, i.e. only after the
final validation succeeded. -/
theorem finalise_failure_leaves_document_open :
    ∀ (env : Env) (d : Doc), d.finalised = false →
      (∀ e, (docFinalise env d).2 = some e → (docFinalise env d).1.finalised = false) ∧
      ((docFinalise env d).2 = none → (docFinalise env d).1.finalised = true) := by
  intro env d h
  rcases docFinalise_flag env d h with ⟨hn, hf⟩ | ⟨⟨e, he⟩, hf⟩
  · refine ⟨fun e2 he2 => ?_, fun _ => hf⟩
    rw [hn] at he2
    cases he2
  · refine ⟨fun e2 he2 => hf, fun hnone => ?_⟩
    rw [he] at hnone
    cases hnone

/-- Witness for `finalise_failure_leaves_document_open`: a document whose
schema requires a missing field `x` fails the final validation and stays
Open; the same document under an unconstrained schema finalises and the
flag is set. -/
theorem finalise_failure_leaves_document_open_witness :
    (docFinalise envFin5 (docInit schemaReqX [] envInit0)).2
      = some (.schemaError "root: missing required [\x27x\x27]") ∧
    (docFinalise envFin5 (docInit schemaReqX [] envInit0)).1.finalised = false ∧
    (docFinalise envFin5 (docInit CSchema.empty [] envInit0)).2 = none ∧
    (docFinalise envFin5 (docInit CSchema.empty [] envInit0)).1.finalised = true := by
  have hcv : cvalidate (.vdict fieldsAfterFin) schemaReqX "root"
      = .error (.schemaError "root: missing required [\x27x\x27]") := by
    rw [cvalidate]
    simp [schemaReqX, fieldsAfterFin, inferType, CSchema.type, CSchema.fields, CSchema.enum,
      CSchema.format, CSchema.addl, typeStep, enumStep, formatStep, itemSchemaOf,
      CSchema.items, CSchema.subtype, TypeSpec.truthy, TypeSpec.allowed, typeMatches,
      objChecks, CSchema.required, dictHas, sortStrs, pyStrListRepr]
    all_goals first
      | rfl
      | (intros; simp_all)
  have hcv2 : cvalidate (.vdict fieldsAfterFin) CSchema.empty "root" = .ok () := by
    rw [cvalidate]
    simp [CSchema.empty, fieldsAfterFin, inferType, CSchema.type, CSchema.fields, CSchema.enum,
      CSchema.format, CSchema.addl, typeStep, enumStep, formatStep, itemSchemaOf,
      CSchema.items, CSchema.subtype, TypeSpec.truthy, TypeSpec.allowed, typeMatches]
    all_goals first
      | rfl
      | (intros; simp_all)
  have h1 : (docFinalise envFin5 (docInit schemaReqX [] envInit0)).2
      = some (.schemaError "root: missing required [\x27x\x27]") := by
    rw [show docFinalise envFin5 (docInit schemaReqX [] envInit0)
        = (match cvalidate (.vdict fieldsAfterFin) schemaReqX "root" with
           | .error e => (⟨fieldsAfterFin, schemaReqX, false⟩, some e)
           | .ok _ => (⟨fieldsAfterFin, schemaReqX, true⟩, none)) from rfl, hcv]
  have h2 : (docFinalise envFin5 (docInit CSchema.empty [] envInit0)).2 = none := by
    rw [show docFinalise envFin5 (docInit CSchema.empty [] envInit0)
        = (match cvalidate (.vdict fieldsAfterFin) CSchema.empty "root" with
           | .error e => (⟨fieldsAfterFin, CSchema.empty, false⟩, some e)
           | .ok _ => (⟨fieldsAfterFin, CSchema.empty, true⟩, none)) from rfl, hcv2]
  exact ⟨h1,
    (finalise_failure_leaves_document_open envFin5 (docInit schemaReqX [] envInit0) rfl).1 _ h1,
    h2,
    (finalise_failure_leaves_document_open envFin5 (docInit CSchema.empty [] envInit0) rfl).2 h2⟩

/-! ## Association-list algebra used by the idempotence proofs -/

/-- `setdefault` on a present key is the identity. -/
theorem dictSetdefault_noop (kvs : List (String × Value)) (k : String) (v : Value)
    (h : dictHas kvs k = true) : dictSetdefault kvs k v = kvs := by
  simp [dictSetdefault, h]

/-- `setdefault` never removes a present key. -/
theorem dictHas_setdefault (kvs : List (String × Value)) (k k2 : String) (v : Value)
    (h : dictHas kvs k = true) : dictHas (dictSetdefault kvs k2 v) k = true := by
  unfold dictSetdefault
  split
  · exact h
  · unfold dictHas at h ⊢
    rw [List.any_append, h]
    rfl

/-- `setdefault` establishes its own key. -/
theorem dictHas_setdefault_self (kvs : List (String × Value)) (k : String) (v : Value) :
    dictHas (dictSetdefault kvs k v) k = true := by
  unfold dictSetdefault
  split
  · assumption
  · unfold dictHas
    rw [List.any_append]
    simp

/-- Assignment establishes its own key. -/
theorem dictHas_set_self (kvs : List (String × Value)) (k : String) (v : Value) :
    dictHas (dictSet kvs k v) k = true := by
  unfold dictSet
  split
  · rename_i hany
    obtain ⟨kv, hmem, hk⟩ := List.any_eq_true.mp hany
    simp only [decide_eq_true_eq] at hk
    exact List.any_eq_true.mpr ⟨(k, v), List.mem_map.mpr ⟨kv, hmem, by simp [hk]⟩, by simp⟩
  · unfold dictHas
    rw [List.any_append]
    simp

/-- Assignment never removes a present key. -/
theorem dictHas_set (kvs : List (String × Value)) (k k2 : String) (v : Value)
    (h : dictHas kvs k = true) : dictHas (dictSet kvs k2 v) k = true := by
  unfold dictSet
  split
  · obtain ⟨kv, hmem, hk⟩ := List.any_eq_true.mp h
    simp only [decide_eq_true_eq] at hk
    by_cases hkk : kv.1 = k2
    · exact List.any_eq_true.mpr
        ⟨(k2, v), List.mem_map.mpr ⟨kv, hmem, by simp [hkk]⟩, by simp [← hk, hkk]⟩
    · exact List.any_eq_true.mpr ⟨kv, List.mem_map.mpr ⟨kv, hmem, by simp [hkk]⟩, by simp [hk]⟩
  · unfold dictHas at h ⊢
    rw [List.any_append, h]
    rfl

/-- Lookup of another key passes through `setdefault`. -/
theorem dictGet_setdefault_ne (kvs : List (String × Value)) (k k2 : String) (v : Value)
    (h : k ≠ k2) : dictGet (dictSetdefault kvs k2 v) k = dictGet kvs k := by
  unfold dictSetdefault
  split
  · rfl
  · unfold dictGet
    rw [List.find?_append]
    cases hf : List.find? (fun kv => decide (kv.1 = k)) kvs
    · simp [Ne.symm h]
    · simp

/-- The in-place-update branch of `dictSet` leaves other keys' lookups
unchanged. -/
theorem dictGet_set_map_aux (k k2 : String) (v : Value) (h : k ≠ k2) :
    ∀ kvs : List (String × Value),
      dictGet (kvs.map (fun kv => if kv.1 = k2 then (k2, v) else kv)) k = dictGet kvs k := by
  intro kvs
  induction kvs with
  | nil => rfl
  | cons kv rest ih =>
      unfold dictGet at *
      by_cases hk2 : kv.1 = k2
      · rw [List.map_cons, if_pos hk2,
            List.find?_cons_of_neg _ (by simp [Ne.symm h]),
            List.find?_cons_of_neg _ (by simp [hk2, Ne.symm h])]
        exact ih
      · rw [List.map_cons, if_neg hk2]
        by_cases hk : kv.1 = k
        · rw [List.find?_cons_of_pos _ (by simp [hk]), List.find?_cons_of_pos _ (by simp [hk])]
        · rw [List.find?_cons_of_neg _ (by simp [hk]), List.find?_cons_of_neg _ (by simp [hk])]
          exact ih

/-- Lookup of another key passes through assignment. -/
theorem dictGet_set_ne (kvs : List (String × Value)) (k k2 : String) (v : Value)
    (h : k ≠ k2) : dictGet (dictSet kvs k2 v) k = dictGet kvs k := by
  unfold dictSet
  split
  · exact dictGet_set_map_aux k k2 v h kvs
  · unfold dictGet
    rw [List.find?_append]
    cases hf : List.find? (fun kv => decide (kv.1 = k)) kvs
    · simp [Ne.symm h]
    · simp

/-- After `d[k] = v`, every entry at `k` carries `v`. -/
theorem dictSet_keyVal (kvs : List (String × Value)) (k : String) (v : Value) :
    keyVal (dictSet kvs k v) k v := by
  refine ⟨dictHas_set_self kvs k v, ?_⟩
  unfold dictSet
  split
  · intro kv hmem hk
    obtain ⟨kv0, hmem0, heq0⟩ := List.mem_map.mp hmem
    by_cases h0 : kv0.1 = k
    · rw [if_pos h0] at heq0
      simp [← heq0]
    · rw [if_neg h0] at heq0
      rw [← heq0] at hk
      exact absurd hk h0
  · rename_i hany
    intro kv hmem hk
    rcases List.mem_append.mp hmem with hin | hin
    · exact absurd (List.any_eq_true.mpr ⟨kv, hin, by simp [hk]⟩) hany
    · simp only [List.mem_singleton] at hin
      simp [hin]

/-- Re-assigning the value every entry at `k` already carries changes
nothing. -/
theorem keyVal_dictSet_noop (kvs : List (String × Value)) (k : String) (v : Value)
    (h : keyVal kvs k v) : dictSet kvs k v = kvs := by
  unfold dictSet
  rw [if_pos (by simpa [dictHas] using h.1)]
  have hcong : ∀ kv ∈ kvs, (if kv.1 = k then (k, v) else kv) = id kv := by
    intro kv hmem
    by_cases hk : kv.1 = k
    · have hv := h.2 kv hmem hk
      simp only [if_pos hk, id]
      rw [← hk, ← hv]
    · simp [hk]
  rw [List.map_congr_left hcong, List.map_id]

/-- Lookup under `keyVal`. -/
theorem dictGet_of_keyVal (kvs : List (String × Value)) (k : String) (v : Value)
    (h : keyVal kvs k v) : dictGet kvs k = some v := by
  obtain ⟨hhas, hall⟩ := h
  simp only [dictHas, List.any_eq_true, decide_eq_true_eq] at hhas
  obtain ⟨kv0, hmem0, hk0⟩ := hhas
  unfold dictGet
  rcases hf : List.find? (fun kv => decide (kv.1 = k)) kvs with _ | kvf
  · exact absurd (List.find?_eq_none.mp hf kv0 hmem0) (by simp [hk0])
  · have hmemf := List.mem_of_find?_eq_some hf
    have hkf : kvf.1 = k := by simpa using List.find?_some hf
    rw [hf]
    simp [hall kvf hmemf hkf]

/-- `keyVal` survives assignment at a different key. -/
theorem keyVal_set_other (kvs : List (String × Value)) (k k2 : String) (v w : Value)
    (hne : k ≠ k2) (h : keyVal kvs k v) : keyVal (dictSet kvs k2 w) k v := by
  constructor
  · exact dictHas_set kvs k k2 w h.1
  · unfold dictSet
    split
    · intro kv hmem hk
      obtain ⟨kv0, hmem0, heq0⟩ := List.mem_map.mp hmem
      by_cases h0 : kv0.1 = k2
      · rw [if_pos h0] at heq0
        rw [← heq0] at hk
        exact absurd hk.symm hne
      · rw [if_neg h0] at heq0
        subst heq0
        exact h.2 kv0 hmem0 hk
    · intro kv hmem hk
      rcases List.mem_append.mp hmem with hin | hin
      · exact h.2 kv hin hk
      · simp only [List.mem_singleton] at hin
        rw [hin] at hk
        exact absurd hk.symm hne

/-- `keyVal` survives `setdefault` at a different key. -/
theorem keyVal_setdefault_other (kvs : List (String × Value)) (k k2 : String) (v w : Value)
    (hne : k ≠ k2) (h : keyVal kvs k v) : keyVal (dictSetdefault kvs k2 w) k v := by
  unfold dictSetdefault
  split
  · exact h
  · constructor
    · have h1 := h.1
      unfold dictHas at h1 ⊢
      rw [List.any_append, h1]
      rfl
    · intro kv hmem hk
      rcases List.mem_append.mp hmem with hin | hin
      · exact h.2 kv hin hk
      · simp only [List.mem_singleton] at hin
        rw [hin] at hk
        exact absurd hk.symm hne

/-- `setdefaults` never removes a present key. -/
theorem setdefaults_has (pairs : List (String × Value)) :
    ∀ (kvs : List (String × Value)) (k : String), dictHas kvs k = true →
      dictHas (setdefaults kvs pairs) k = true := by
  induction pairs with
  | nil => intro kvs k h; exact h
  | cons p ps ih =>
      intro kvs k h
      exact ih (dictSetdefault kvs p.1 p.2) k (dictHas_setdefault kvs k p.1 p.2 h)

/-- `setdefaults` establishes every listed key. -/
theorem setdefaults_has_mem (pairs : List (String × Value)) :
    ∀ (kvs : List (String × Value)) (k : String) (v : Value), (k, v) ∈ pairs →
      dictHas (setdefaults kvs pairs) k = true := by
  induction pairs with
  | nil => intro kvs k v h; cases h
  | cons p ps ih =>
      intro kvs k v h
      rcases List.mem_cons.mp h with heq | hmem
      · rw [← heq]
        exact setdefaults_has ps _ k (dictHas_setdefault_self kvs k v)
      · exact ih _ k v hmem

/-- With every listed key already present, `setdefaults` changes nothing. -/
theorem setdefaults_has_key (pairs : List (String × Value)) (kvs : List (String × Value))
    (k : String) (h : k ∈ pairs.map Prod.fst) :
    dictHas (setdefaults kvs pairs) k = true := by
  rcases List.mem_map.mp h with ⟨p, hp, hk⟩
  subst hk
  exact setdefaults_has_mem pairs kvs p.1 p.2 hp


theorem setdefaults_noop (pairs : List (String × Value)) :
    ∀ kvs : List (String × Value), (∀ p ∈ pairs, dictHas kvs p.1 = true) →
      setdefaults kvs pairs = kvs := by
  induction pairs with
  | nil => intro kvs _; rfl
  | cons p ps ih =>
      intro kvs h
      have h0 := dictSetdefault_noop kvs p.1 p.2 (h p (by simp))
      show setdefaults (dictSetdefault kvs p.1 p.2) ps = kvs
      rw [h0]
      exact ih kvs (fun q hq => h q (by simp [hq]))

/-- Lookups of unlisted keys pass through `setdefaults`. -/
theorem setdefaults_get_ne (pairs : List (String × Value)) :
    ∀ (kvs : List (String × Value)) (k : String), (∀ p ∈ pairs, k ≠ p.1) →
      dictGet (setdefaults kvs pairs) k = dictGet kvs k := by
  induction pairs with
  | nil => intro kvs k _; rfl
  | cons p ps ih =>
      intro kvs k h
      show dictGet (setdefaults (dictSetdefault kvs p.1 p.2) ps) k = dictGet kvs k
      rw [ih _ k (fun q hq => h q (by simp [hq])),
          dictGet_setdefault_ne kvs k p.1 p.2 (h p (by simp))]

/-- `keyVal` at an unlisted key survives `setdefaults`. -/
theorem setdefaults_keyVal (pairs : List (String × Value)) :
    ∀ (kvs : List (String × Value)) (k : String) (v : Value), (∀ p ∈ pairs, k ≠ p.1) →
      keyVal kvs k v → keyVal (setdefaults kvs pairs) k v := by
  induction pairs with
  | nil => intro kvs k v _ h; exact h
  | cons p ps ih =>
      intro kvs k v hne h
      exact ih _ k v (fun q hq => hne q (by simp [hq]))
        (keyVal_setdefault_other kvs k p.1 v p.2 (hne p (by simp)) h)

set_option maxHeartbeats 1000000 in
/-- Stage one leaves the `inputs` entry alone: none of the run-metadata
`setdefault`s, the `input_hash` stamp, or the `findings` default touch it. -/
theorem odocDerive_inputs (env : Env) (d : ODoc) :
    dictGet (odocDerive env d).1 "inputs" = dictGet d.fields "inputs" := by
  simp only [odocDerive]
  rw [dictGet_setdefault_ne _ _ _ _ (by decide),
      dictGet_set_ne _ _ _ _ (by decide),
      setdefaults_get_ne]
  intro p hp
  fin_cases hp <;> simp

set_option maxHeartbeats 1000000 in
/-- The `inputs` value captured by stage one is read from the original
fields (the run-metadata `setdefault`s do not touch `inputs`). -/
theorem odocDerive_snd (env : Env) (d : ODoc) :
    (odocDerive env d).2 = (dictGet d.fields "inputs").getD .vnull := by
  simp only [odocDerive]
  rw [setdefaults_get_ne]
  intro p hp
  fin_cases hp <;> simp

set_option maxHeartbeats 1000000 in
/-- After stage one, `input_hash` holds the hash of the captured inputs. -/
theorem odocDerive_kv_ih (env : Env) (d : ODoc) :
    keyVal (odocDerive env d).1 "input_hash" (.vstr (hashVal (odocDerive env d).2)) := by
  simp only [odocDerive]
  exact keyVal_setdefault_other _ _ _ _ _ (by decide) (dictSet_keyVal _ _ _)

set_option maxHeartbeats 1000000 in
/-- After stage one, a `findings` entry is present (the `setdefault`). -/
theorem odocDerive_has_findings (env : Env) (d : ODoc) :
    dictHas (odocDerive env d).1 "findings" = true := by
  simp only [odocDerive]
  exact dictHas_setdefault_self _ _ _

set_option maxHeartbeats 1000000 in
/-- After stage one, every run-metadata key is present. -/
theorem odocDerive_has6 (env : Env) (d : ODoc) (k : String)
    (hk : k = "run_id" ∨ k = "run_user" ∨ k = "run_host" ∨ k = "run_start_dtg"
      ∨ k = "run_end_dtg" ∨ k = "run_duration_seconds") :
    dictHas (odocDerive env d).1 k = true := by
  simp only [odocDerive]
  apply dictHas_setdefault
  apply dictHas_set
  rcases hk with rfl | rfl | rfl | rfl | rfl | rfl <;>
    exact setdefaults_has_key _ _ _ (by simp)

set_option maxHeartbeats 1000000 in
/-- Stage two does not change the value at a key distinct from the
`findings_hash` stamp and the eight placeholder `setdefault` keys. -/
theorem odocFinish_get_skip (F : List (String × Value)) (iv : Value)
    (fnd : List Value) (k : String)
    (h1 : k ≠ "findings_hash") (h2 : k ≠ "input_schema_version")
    (h3 : k ≠ "output_schema_version") (h4 : k ≠ "analytic_id")
    (h5 : k ≠ "analytic_name") (h6 : k ≠ "analytic_version")
    (h7 : k ≠ "status") (h8 : k ≠ "exit_code") (h9 : k ≠ "records_processed") :
    dictGet (odocFinish F iv fnd) k = dictGet F k := by
  simp only [odocFinish]
  rw [setdefaults_get_ne, dictGet_set_ne _ _ _ _ h1]
  intro p hp
  fin_cases hp <;> assumption

set_option maxHeartbeats 1000000 in
/-- Stage two preserves an existing binding at a key it does not write. -/
theorem odocFinish_kv_skip (F : List (String × Value)) (iv : Value)
    (fnd : List Value) (k : String) (v : Value)
    (h1 : k ≠ "findings_hash") (h2 : k ≠ "input_schema_version")
    (h3 : k ≠ "output_schema_version") (h4 : k ≠ "analytic_id")
    (h5 : k ≠ "analytic_name") (h6 : k ≠ "analytic_version")
    (h7 : k ≠ "status") (h8 : k ≠ "exit_code") (h9 : k ≠ "records_processed")
    (hkv : keyVal F k v) :
    keyVal (odocFinish F iv fnd) k v := by
  simp only [odocFinish]
  apply setdefaults_keyVal
  · intro p hp
    fin_cases hp <;> assumption
  · exact keyVal_set_other _ _ _ _ _ h1 hkv

set_option maxHeartbeats 1000000 in
/-- After stage two, `findings_hash` holds the hash of the findings list. -/
theorem odocFinish_kv_fh (F : List (String × Value)) (iv : Value)
    (fnd : List Value) :
    keyVal (odocFinish F iv fnd) "findings_hash" (.vstr (hashVal (.vlist fnd))) := by
  simp only [odocFinish]
  apply setdefaults_keyVal
  · intro p hp
    fin_cases hp <;> simp
  · exact dictSet_keyVal _ _ _

set_option maxHeartbeats 1000000 in
/-- Stage two never removes a key. -/
theorem odocFinish_has (F : List (String × Value)) (iv : Value)
    (fnd : List Value) (k : String) (hk : dictHas F k = true) :
    dictHas (odocFinish F iv fnd) k = true := by
  simp only [odocFinish]
  exact setdefaults_has _ _ _ (dictHas_set _ _ _ _ hk)

set_option maxHeartbeats 1000000 in
/-- After stage two, every placeholder key is present. -/
theorem odocFinish_has8 (F : List (String × Value)) (iv : Value)
    (fnd : List Value) (k : String)
    (hk : k = "input_schema_version" ∨ k = "output_schema_version"
      ∨ k = "analytic_id" ∨ k = "analytic_name" ∨ k = "analytic_version"
      ∨ k = "status" ∨ k = "exit_code" ∨ k = "records_processed") :
    dictHas (odocFinish F iv fnd) k = true := by
  simp only [odocFinish]
  rcases hk with rfl | rfl | rfl | rfl | rfl | rfl | rfl | rfl <;>
    exact setdefaults_has_key _ _ _ (by simp)

set_option maxHeartbeats 1000000 in
/-- Stage one is the identity on a document that already carries all the
run-metadata keys, the matching `input_hash`, and a `findings` entry. -/
theorem odocDerive_fixed (env2 : Env) (d2 : ODoc) (iv : Value)
    (h6 : ∀ k : String, k = "run_id" ∨ k = "run_user" ∨ k = "run_host"
      ∨ k = "run_start_dtg" ∨ k = "run_end_dtg" ∨ k = "run_duration_seconds" →
      dictHas d2.fields k = true)
    (hiv : (dictGet d2.fields "inputs").getD .vnull = iv)
    (hih : keyVal d2.fields "input_hash" (.vstr (hashVal iv)))
    (hfnd : dictHas d2.fields "findings" = true) :
    odocDerive env2 d2 = (d2.fields, iv) := by
  simp only [odocDerive]
  rw [setdefaults_noop]
  · rw [hiv, keyVal_dictSet_noop _ _ _ hih, dictSetdefault_noop _ _ _ hfnd]
  · intro p hp
    fin_cases hp <;> exact h6 _ (by simp)

set_option maxHeartbeats 1000000 in
/-- Stage two is the identity on fields that already carry the matching
`findings_hash` and all the placeholder keys. -/
theorem odocFinish_fixed (fields : List (String × Value)) (iv : Value)
    (fnd : List Value)
    (hfh : keyVal fields "findings_hash" (.vstr (hashVal (.vlist fnd))))
    (h8 : ∀ k : String, k = "input_schema_version" ∨ k = "output_schema_version"
      ∨ k = "analytic_id" ∨ k = "analytic_name" ∨ k = "analytic_version"
      ∨ k = "status" ∨ k = "exit_code" ∨ k = "records_processed" →
      dictHas fields k = true) :
    odocFinish fields iv fnd = fields := by
  simp only [odocFinish]
  rw [keyVal_dictSet_noop _ _ _ hfh]
  apply setdefaults_noop
  intro p hp
  fin_cases hp <;> exact h8 _ (by simp)

set_option maxHeartbeats 4000000 in
/-- A successful OutputDoc.finalise is a fixed point: running it again (at
any later clock) raises nothing and changes nothing — every `setdefault`
finds its key present, both hashes recompute to the values already stored,
and the final validation re-accepts the unchanged document. -/
theorem odocFinalise_idem (env env2 : Env) (sch : ASchema) (d d2 : ODoc)
    (h : odocFinalise env sch d = (d2, none)) :
    odocFinalise env2 sch d2 = (d2, none) := by
  simp only [odocFinalise] at h
  cases hc : (match dictGet d.fields "inputs" with
              | some (.vdict _) => true
              | _ => false) with
  | false =>
      rw [hc] at h
      simp only [Bool.not_false, if_true] at h
      simp at h
  | true =>
      rw [hc] at h
      simp only [Bool.not_true, Bool.false_eq_true, if_false] at h
      cases hfind : dictGet (odocDerive env d).1 "findings" with
      | none =>
          rw [hfind] at h
          simp at h
      | some v =>
          rw [hfind] at h
          cases v <;> try simp at h
          rename_i findings
          cases hval : avalidate
              (.vdict (odocFinish (odocDerive env d).1 (odocDerive env d).2 findings))
              sch "OutputDoc" with
          | error e =>
              rw [hval] at h
              simp at h
          | ok u =>
              rw [hval] at h
              rw [Prod.mk.injEq] at h
              obtain ⟨hd2, -⟩ := h
              -- the inputs entry of the original document
              obtain ⟨ikv, hgi⟩ : ∃ ikv, dictGet d.fields "inputs" = some (.vdict ikv) := by
                rcases hgi : dictGet d.fields "inputs" with _ | vi
                · rw [hgi] at hc; cases hc
                · cases vi <;> rw [hgi] at hc <;> try cases hc
                  exact ⟨_, rfl⟩
              have hfields : d2.fields = odocFinish (odocDerive env d).1
                  (odocDerive env d).2 findings := by rw [← hd2]
              -- what the finalised document d2 carries
              have h6 : ∀ k : String, k = "run_id" ∨ k = "run_user" ∨ k = "run_host"
                  ∨ k = "run_start_dtg" ∨ k = "run_end_dtg" ∨ k = "run_duration_seconds" →
                  dictHas d2.fields k = true := by
                intro k hk
                rw [hfields]
                exact odocFinish_has _ _ _ _ (odocDerive_has6 env d k hk)
              have hfnd2has : dictHas d2.fields "findings" = true := by
                rw [hfields]
                exact odocFinish_has _ _ _ _ (odocDerive_has_findings env d)
              have hgi2 : dictGet d2.fields "inputs" = some (.vdict ikv) := by
                rw [hfields,
                    odocFinish_get_skip _ _ _ "inputs" (by decide) (by decide) (by decide)
                      (by decide) (by decide) (by decide) (by decide) (by decide) (by decide),
                    odocDerive_inputs, hgi]
              have hiv2 : (dictGet d2.fields "inputs").getD .vnull
                  = (odocDerive env d).2 := by
                rw [hgi2, odocDerive_snd, hgi]
              have hih2 : keyVal d2.fields "input_hash"
                  (.vstr (hashVal (odocDerive env d).2)) := by
                rw [hfields]
                exact odocFinish_kv_skip _ _ _ "input_hash" _ (by decide) (by decide)
                  (by decide) (by decide) (by decide) (by decide) (by decide) (by decide)
                  (by decide) (odocDerive_kv_ih env d)
              have hfh2 : keyVal d2.fields "findings_hash"
                  (.vstr (hashVal (.vlist findings))) := by
                rw [hfields]
                exact odocFinish_kv_fh _ _ _
              have h82 : ∀ k : String, k = "input_schema_version" ∨ k = "output_schema_version"
                  ∨ k = "analytic_id" ∨ k = "analytic_name" ∨ k = "analytic_version"
                  ∨ k = "status" ∨ k = "exit_code" ∨ k = "records_processed" →
                  dictHas d2.fields k = true := by
                intro k hk
                rw [hfields]
                exact odocFinish_has8 _ _ _ _ hk
              have hfind2 : dictGet d2.fields "findings" = some (.vlist findings) := by
                rw [hfields,
                    odocFinish_get_skip _ _ _ "findings" (by decide) (by decide) (by decide)
                      (by decide) (by decide) (by decide) (by decide) (by decide) (by decide)]
                exact hfind
              have hval2 : avalidate (.vdict d2.fields) sch "OutputDoc" = .ok u := by
                rw [hfields]
                exact hval
              -- run 2 is the identity stage by stage
              have hder2 : odocDerive env2 d2 = (d2.fields, (odocDerive env d).2) :=
                odocDerive_fixed env2 d2 _ h6 hiv2 hih2 hfnd2has
              have hfin2 : odocFinish d2.fields (odocDerive env d).2 findings
                  = d2.fields :=
                odocFinish_fixed _ _ _ hfh2 h82
              have hc2 : (match dictGet d2.fields "inputs" with
                          | some (.vdict _) => true
                          | _ => false) = true := by
                rw [hgi2]
              -- assemble run 2
              simp only [odocFinalise]
              rw [hder2]
              dsimp only
              rw [hc2]
              simp only [Bool.not_true, Bool.false_eq_true, if_false]
              rw [hfind2]
              dsimp only
              rw [hfin2, hval2]

/-- With a schema node declaring nothing (no type, enum, format, oneOf,
properties, required list, additionalProperties or items), `_validate`
checks nothing and accepts any value. -/
theorem avalidate_free (data : Value) (path : String) :
    avalidate data aschemaFree path = .ok () := by
  show avalidate data (.mk none none none none none none none none) path = .ok ()
  cases data <;> (rw [avalidate]; all_goals first | rfl | (intros; simp_all))

/-- The concrete first `OutputDoc.finalise` run behind the C3 witness: on
`odC3` (an inputs dict and nothing else) it succeeds and leaves
`odC3fin`. -/
theorem odocFinalise_c3_run :
    odocFinalise envFin5 aschemaFree odC3 = (odC3fin, none) := by
  rw [show odocFinalise envFin5 aschemaFree odC3
      = (match avalidate (.vdict (odocFinish (odocDerive envFin5 odC3).1
            (odocDerive envFin5 odC3).2 [])) aschemaFree "OutputDoc" with
         | .error e => (⟨odocFinish (odocDerive envFin5 odC3).1
              (odocDerive envFin5 odC3).2 [], "2025-01-01T00:00:00+00:00", 0⟩,
              some e)
         | .ok _ => (odC3fin, none)) from rfl,
      avalidate_free]

/-- C3: a second finalise is a no-op that does not raise.  For Document the
guard returns immediately on the finalised flag, changing nothing; for
OutputDoc (which has no flag) a second run of finalise on the document a
successful run produced re-derives every field to the value already stored
— each `setdefault` finds its key, both hash stamps recompute to the stored
digests, and validation re-accepts — so it returns the same document with
no error. -/
theorem finalise_idempotent (envD : Env) (d : Doc) (hd : d.finalised = true)
    (env env2 : Env) (sch : ASchema) (od od2 : ODoc)
    (ho : odocFinalise env sch od = (od2, none)) :
    docFinalise envD d = (d, none) ∧ odocFinalise env2 sch od2 = (od2, none) := by
  refine ⟨?_, odocFinalise_idem env env2 sch od od2 ho⟩
  simp only [docFinalise, hd, if_true]

/-- The C3 claim theorem applied at a concrete finalised Document and a
concrete successful OutputDoc.finalise run. -/
theorem finalise_idempotent_witness :
    docC3.finalised = true
    ∧ odocFinalise envFin5 aschemaFree odC3 = (odC3fin, none)
    ∧ docFinalise envInit0 docC3 = (docC3, none)
    ∧ odocFinalise envInit0 aschemaFree odC3fin = (odC3fin, none) := by
  have h := finalise_idempotent envInit0 docC3 rfl envFin5 envInit0 aschemaFree
    odC3 odC3fin odocFinalise_c3_run
  exact ⟨rfl, odocFinalise_c3_run, h.1, h.2⟩

/-- The empty schema node (an undeclared field) validates anything. -/
theorem cvalidate_empty (v : Value) (path : String) :
    cvalidate v CSchema.empty path = .ok () := by
  show cvalidate v (.mk none none none none none none none none false none) path = .ok ()
  cases v <;> (rw [cvalidate]; all_goals first | rfl | (intros; simp_all))

/-- A plain optional-string schema node accepts any string. -/
theorem cvalidate_str_node (s : String) (path : String) :
    cvalidate (.vstr s)
      (.mk (some (.many ["string"])) none none none none none none none false none)
      path = .ok () := by
  rw [cvalidate]
  simp [typeStep, enumStep, formatStep, inferType, CSchema.type, CSchema.enum,
    CSchema.format, CSchema.fields, CSchema.items, CSchema.subtype, itemSchemaOf,
    TypeSpec.truthy, TypeSpec.allowed, typeMatches]
  all_goals first | rfl | (intros; simp_all)

/-- The object-level checks pass on the finalised model document (no
required fields, `additionalProperties` unset). -/
theorem objChecks_model : objChecks sfModel none fieldsC5 "root" = .ok () := rfl

/-- Every entry of the finalised model document validates against the
model schema field table. -/
theorem cvalidateChildren_model :
    cvalidateChildren fieldsC5 sfModel "root" = .ok () := by
  show cvalidateChildren fieldsC5
    [("model_file_hash", .mk (some (.many ["string"])) none none none none none none none false none),
     ("model_file_path", .mk (some (.many ["string"])) none none none none none none none false none)]
    "root" = .ok ()
  simp [fieldsC5, cvalidateChildren, fieldsGet, childPath, cvalidate_empty, cvalidate_str_node]
  rfl

/-- The finalised model document passes the closing validation. -/
theorem cvalidate_model : cvalidate (.vdict fieldsC5) schemaModel "root" = .ok () := by
  rw [cvalidate]
  simp [schemaModel, inferType, CSchema.type, CSchema.fields, CSchema.enum,
    CSchema.format, CSchema.addl, CSchema.items, CSchema.subtype, itemSchemaOf,
    typeStep, enumStep, formatStep, TypeSpec.truthy, TypeSpec.allowed, typeMatches,
    objChecks_model, cvalidateChildren_model]
  all_goals first | rfl | (intros; simp_all)

/-- Stage checkpoints of the concrete model-document finalise run: the
metadata defaults and hash stamps change nothing (the schema declares none
of those fields), and the model stamp zero-fills. -/
theorem c5_meta : docMetaDefaults sfModel envFin5
    (.vstr "2025-01-01T00:00:00+00:00") 5 fieldsC5pre = fieldsC5pre := rfl

/-- The hash stamps are schema-gated off for the model schema. -/
theorem c5_hash : docHashStamps sfModel fieldsC5pre = fieldsC5pre := rfl

/-- The model stamp finds no file at the path and stores the placeholder. -/
theorem c5_model : docModelStamp sfModel envFin5 fieldsC5pre = fieldsC5 := rfl

/-- The `execution_environment` default is schema-gated off. -/
theorem c5_env : docEnvStamp sfModel envFin5 fieldsC5 = fieldsC5 := rfl

/-- A successful closing validation flips the finalised flag and installs
the accumulated fields. -/
theorem docFinaliseTail_ok (d : Doc) (f : List (String × Value)) (u : Unit)
    (h : cvalidate (.vdict f) d.schema "root" = .ok u) :
    docFinaliseTail d f = (⟨f, d.schema, true⟩, none) := by
  simp only [docFinaliseTail]
  rw [h]

/-- The concrete finalise run of the model document: it succeeds, and its
resulting fields carry the zero-filled model hash. -/
theorem docFinalise_model_run :
    docFinalise envFin5 (docInit schemaModel
        [("model_file_path", .vstr "/missing/model.bin")] envInit0)
      = (⟨fieldsC5, schemaModel, true⟩, none) := by
  simp only [docFinalise]
  split
  · rename_i h
    rw [show (docInit schemaModel
        [("model_file_path", .vstr "/missing/model.bin")] envInit0).finalised = false from rfl] at h
    simp at h
  · have hg : dictGet (dictSet (docInit schemaModel
        [("model_file_path", .vstr "/missing/model.bin")] envInit0).fields
        "finalization_dtg" (.vstr envFin5.nowIso)) "initialization_dtg"
      = some (.vstr "2025-01-01T00:00:00+00:00") := rfl
    rw [hg]
    split
    · rename_i heq
      simp at heq
    · rename_i x initV heq
      rw [Option.some.injEq] at heq
      subst heq
      split
      · rename_i s heq
        rw [Value.vstr.injEq] at heq
        subst heq
        rw [show parseIsoParts "2025-01-01T00:00:00+00:00"
            = some ⟨2025,1,1,0,0,0,0,0⟩ from rfl,
          show parseIsoParts envFin5.nowIso
            = some ⟨2025,1,1,0,0,5,0,0⟩ from rfl]
        split
        · rename_i pi pe heq1 heq2
          rw [Option.some.injEq] at heq1 heq2
          subst heq1
          subst heq2
          rw [show docFinaliseBody envFin5 (docInit schemaModel
        [("model_file_path", .vstr "/missing/model.bin")] envInit0)
                (.vstr "2025-01-01T00:00:00+00:00")
                (dictSet (docInit schemaModel
        [("model_file_path", .vstr "/missing/model.bin")] envInit0).fields
                  "finalization_dtg" (.vstr envFin5.nowIso))
                ⟨2025,1,1,0,0,0,0,0⟩ ⟨2025,1,1,0,0,5,0,0⟩
              = docFinaliseTail (docInit schemaModel
        [("model_file_path", .vstr "/missing/model.bin")] envInit0) fieldsC5 from rfl]
          rw [docFinaliseTail_ok _ _ ()
              (by rw [show (docInit schemaModel
        [("model_file_path", .vstr "/missing/model.bin")] envInit0).schema = schemaModel from rfl]
                  exact cvalidate_model)]
          rw [show (docInit schemaModel
        [("model_file_path", .vstr "/missing/model.bin")] envInit0).schema = schemaModel from rfl]
        · rename_i hx
          exact (hx ⟨2025,1,1,0,0,0,0,0⟩ ⟨2025,1,1,0,0,5,0,0⟩ rfl rfl).elim
      · rename_i hx
        exact (hx "2025-01-01T00:00:00+00:00" rfl).elim

/-- C5: the model-hash block swallows a missing model file.  Under a schema
declaring `model_file_hash`, a document whose `model_file_path` names a
path absent from the file system finalises with no reported error and with
the 64-zero placeholder stored as the hash: the `except Exception` arm
zero-fills instead of propagating the `FileNotFoundError` the specification
promises to report. -/
theorem missing_model_file_zero_filled :
    envFin5.fs "/missing/model.bin" = none
    ∧ docFinalise envFin5 (docInit schemaModel
        [("model_file_path", .vstr "/missing/model.bin")] envInit0)
      = (⟨fieldsC5, schemaModel, true⟩, none)
    ∧ dictGet fieldsC5 "model_file_hash" = some (.vstr zeros64) := by
  refine ⟨rfl, docFinalise_model_run, rfl⟩

/-- Under a schema that declares only `oneOf`, `_validate` is exactly its
oneOf loop (no other rule fires). -/
theorem avalidate_oneOfOnly (data : Value) (alts : List ASchema) (path : String) :
    avalidate data (oneOfOnly alts) path = aoneOf data alts 0 [] path := by
  show avalidate data (.mk none none none (some alts) none none none none) path = _
  cases hx : aoneOf data alts 0 [] path with
  | ok u =>
      cases data <;>
        (rw [avalidate]; simp [hx, aTypeStep, aEnumStep, aFormatStep];
         all_goals first | rfl | (intros; simp_all))
  | error e =>
      cases data <;>
        (rw [avalidate]; simp [hx, aTypeStep, aEnumStep, aFormatStep];
         all_goals first | rfl | (intros; simp_all))

/-- The oneOf loop stops at the first alternative that validates: whatever
error lines the failing prefix contributed, the call returns cleanly. -/
theorem aoneOf_first_ok (data : Value) (path : String) (a : ASchema)
    (post : List ASchema) (hok : avalidate data a path = .ok ()) :
    ∀ (pre : List ASchema) (i : Nat) (errs : List String),
      (∀ b ∈ pre, ∃ e, avalidate data b path = .error e) →
      aoneOf data (pre ++ a :: post) i errs path = .ok () := by
  intro pre
  induction pre with
  | nil =>
      intro i errs _
      simp only [List.nil_append, aoneOf, hok]
      rfl
  | cons b pre ih =>
      intro i errs hfail
      obtain ⟨e, he⟩ := hfail b (List.mem_cons_self b pre)
      simp only [List.cons_append, aoneOf, he]
      exact ih (i + 1) (errs ++ [oneOfLine i b e])
        (fun c hc => hfail c (List.mem_cons_of_mem b hc))

/-- When every alternative fails, the oneOf loop raises the aggregate of
the collected per-alternative lines. -/
theorem aoneOf_all_fail (data : Value) (path : String) :
    ∀ (alts : List ASchema) (i : Nat) (errs : List String),
      (∀ b ∈ alts, ∃ e, avalidate data b path = .error e) →
      aoneOf data alts i errs path
        = .error (.schemaError (oneOfFailMsg path
            (errs ++ subErrLines data path alts i))) := by
  intro alts
  induction alts with
  | nil =>
      intro i errs _
      rw [aoneOf, subErrLines]
      simp only [List.append_nil]
      rfl
  | cons a rest ih =>
      intro i errs hfail
      obtain ⟨e, he⟩ := hfail a (List.mem_cons_self a rest)
      simp only [aoneOf, he]
      rw [ih (i + 1) (errs ++ [oneOfLine i a e])
        (fun c hc => hfail c (List.mem_cons_of_mem a hc))]
      simp only [subErrLines, he]
      simp

/-- An integer-typed node rejects a string with the expected/got message. -/
theorem avalidate_aIntNode_str : avalidate (.vstr "s") aIntNode "root"
    = .error (.schemaError "root: expected integer, got str") := by
  show avalidate _ (.mk (some "integer") none none none none none none none) _ = _
  rw [avalidate]
  simp [aTypeStep, aTypeMatch, pyTypeName]
  all_goals first | rfl | (intros; simp_all)

/-- A string-typed node accepts a string. -/
theorem avalidate_aStrNode_str : avalidate (.vstr "s") aStrNode "root" = .ok () := by
  show avalidate _ (.mk (some "string") none none none none none none none) _ = _
  rw [avalidate]
  simp [aTypeStep, aTypeMatch, aEnumStep, aFormatStep]
  all_goals first | rfl | (intros; simp_all)

/-- An integer-typed node rejects a list. -/
theorem avalidate_aIntNode_list : avalidate (.vlist []) aIntNode "root"
    = .error (.schemaError "root: expected integer, got list") := by
  show avalidate _ (.mk (some "integer") none none none none none none none) _ = _
  rw [avalidate]
  simp [aTypeStep, aTypeMatch, pyTypeName]
  all_goals first | rfl | (intros; simp_all)

/-- A string-typed node rejects a list. -/
theorem avalidate_aStrNode_list : avalidate (.vlist []) aStrNode "root"
    = .error (.schemaError "root: expected string, got list") := by
  show avalidate _ (.mk (some "string") none none none none none none none) _ = _
  rw [avalidate]
  simp [aTypeStep, aTypeMatch, pyTypeName]
  all_goals first | rfl | (intros; simp_all)

/-- C1 (amended: it is analytic_schema._validate that implements the
property; the unified contract validator ignores `oneOf` entirely — see
the counterexample).  For `_validate` under a node declaring a oneOf list:
the check is exactly the oneOf loop; the first alternative that validates
without error wins (every earlier alternative having failed); and when
every alternative fails, the raised error aggregates one line per
alternative in declared order and is tagged with the original path. -/
theorem oneof_semantics (data : Value) (alts : List ASchema) (path : String) :
    avalidate data (oneOfOnly alts) path = aoneOf data alts 0 [] path
    ∧ (∀ pre a post, alts = pre ++ a :: post →
        (∀ b ∈ pre, ∃ e, avalidate data b path = .error e) →
        avalidate data a path = .ok () →
        avalidate data (oneOfOnly alts) path = .ok ())
    ∧ ((∀ b ∈ alts, ∃ e, avalidate data b path = .error e) →
        avalidate data (oneOfOnly alts) path
          = .error (.schemaError (oneOfFailMsg path (subErrLines data path alts 0)))) := by
  refine ⟨avalidate_oneOfOnly data alts path, ?_, ?_⟩
  · intro pre a post hsplit hpre hok
    rw [avalidate_oneOfOnly, hsplit]
    exact aoneOf_first_ok data path a post hok pre 0 [] hpre
  · intro hall
    rw [avalidate_oneOfOnly, aoneOf_all_fail data path alts 0 [] hall]
    simp

/-- The C1 theorem at a concrete input: a string wins on the second
alternative of `[integer, string]`; a list fails both and receives the
aggregated error at the original path. -/
theorem oneof_semantics_witness :
    avalidate (.vstr "s") (oneOfOnly [aIntNode, aStrNode]) "root" = .ok ()
    ∧ avalidate (.vlist []) (oneOfOnly [aIntNode, aStrNode]) "root"
      = .error (.schemaError (oneOfFailMsg "root"
          (subErrLines (.vlist []) "root" [aIntNode, aStrNode] 0))) := by
  constructor
  · exact (oneof_semantics (.vstr "s") [aIntNode, aStrNode] "root").2.1
      [aIntNode] aStrNode [] rfl
      (by intro b hb
          simp only [List.mem_singleton] at hb
          subst hb
          exact ⟨_, avalidate_aIntNode_str⟩)
      avalidate_aStrNode_str
  · exact (oneof_semantics (.vlist []) [aIntNode, aStrNode] "root").2.2
      (by intro b hb
          simp only [List.mem_cons, List.not_mem_nil, or_false] at hb
          rcases hb with rfl | rfl
          · exact ⟨_, avalidate_aIntNode_list⟩
          · exact ⟨_, avalidate_aStrNode_list⟩)

/-- C1 counterexample: the unified contract validator accepts a string
under a schema whose only declaration is a oneOf whose sole alternative
rejects that same string — `validate` never reads the construct. -/
theorem oneof_ignored_counterexample :
    cvalidate (.vstr "x") (cOneOfOnly [cIntNode]) "root" = .ok ()
    ∧ cvalidate (.vstr "x") cIntNode "root"
      = .error (.schemaError "root: expected [\x27integer\x27], got str") := by
  constructor
  · show cvalidate _ (.mk none none none (some [cIntNode]) none none none none false none) _ = _
    rw [cvalidate]
    simp [inferType, CSchema.type, CSchema.fields, CSchema.enum, CSchema.format,
      typeStep, enumStep, formatStep, itemSchemaOf, CSchema.items, CSchema.subtype]
    all_goals first | rfl | (intros; simp_all)
  · show cvalidate _ (.mk (some (.many ["integer"])) none none none none none none none false none) _ = _
    rw [cvalidate]
    simp [inferType, CSchema.type, CSchema.enum, CSchema.format, typeStep,
      TypeSpec.truthy, TypeSpec.allowed, typeMatches, pyStrListRepr, pyTypeName,
      strLitChars, escChar]
    all_goals first | rfl | (intros; simp_all)

/-- The default-injection fold is the identity when every defaulted
field is already present. -/
theorem defaults_noop_aux (kvs : List (String × Value)) :
    ∀ sf : List (String × CSchema),
      (∀ nf ∈ sf, nf.2.default ≠ none → dictHas kvs nf.1 = true) →
      sf.foldl (fun acc nf =>
        match nf.2.default with
        | some dv => if dictHas acc nf.1 then acc else acc ++ [(nf.1, dv)]
        | none => acc) kvs = kvs := by
  intro sf
  induction sf with
  | nil => intro h; rfl
  | cons nf rest ih =>
      intro h
      rw [List.foldl_cons]
      cases hd : nf.2.default with
      | none =>
          simp only [hd]
          exact ih (fun c hc hne => h c (List.mem_cons_of_mem nf hc) hne)
      | some dv =>
          have hh := h nf (List.mem_cons_self nf rest) (by rw [hd]; simp)
          simp only [hd, hh, if_true]
          exact ih (fun c hc hne => h c (List.mem_cons_of_mem nf hc) hne)

/-- C9 (amended): re-running parse-and-validate on an already canonical
mapping returns it unchanged, provided no string value re-dereferences —
the dereference step is applied again on every pass, so a string value
that is a readable file path or parses as JSON is rewritten again (see
the counterexample).  With every value a fixed point of the dereference,
every defaulted field present, and the mapping validating, the call
returns the identical mapping. -/
theorem input_revalidation_fixed (fs : String → Option String) (ischema : CSchema)
    (sf : List (String × CSchema)) (kvs : List (String × Value))
    (hfl : ischema.fields = some sf)
    (hderef : ∀ kv ∈ kvs, derefValue fs kv.2 = kv.2)
    (hdef : ∀ nf ∈ sf, nf.2.default ≠ none → dictHas kvs nf.1 = true)
    (hok : cvalidate (.vdict kvs) ischema "root" = .ok ()) :
    parseAndValidateInput fs ischema (.vdict kvs) = .ok (.vdict kvs) := by
  have hraw : kvs.map (fun kv => (kv.1, derefValue fs kv.2)) = kvs := by
    have : ∀ kv ∈ kvs, (kv.1, derefValue fs kv.2) = id kv := by
      intro kv hkv
      rw [hderef kv hkv]
      rfl
    rw [List.map_congr_left this, List.map_id]
  simp only [parseAndValidateInput]
  split
  · simp [CSchema.fields] at hfl
  · simp only [hraw, hfl, Option.getD_some,
      defaults_noop_aux kvs sf hdef, hok]

/-- The string form of the drift example validates under `schemaF`. -/
theorem cvalidate_f_str : cvalidate (.vdict [("f", .vstr "12")]) schemaF "root" = .ok () := by
  rw [cvalidate]
  simp [schemaF, inferType, CSchema.type, CSchema.fields, CSchema.enum, CSchema.format,
    CSchema.addl, CSchema.items, CSchema.subtype, itemSchemaOf, typeStep, enumStep,
    formatStep, objChecks, CSchema.required, dictHas, TypeSpec.truthy, TypeSpec.allowed,
    typeMatches, cvalidateChildren, fieldsGet, childPath, cvalidate]
  all_goals first | rfl | (intros; simp_all)

/-- The integer form of the drift example validates under `schemaF`. -/
theorem cvalidate_f_int : cvalidate (.vdict [("f", .vint 12)]) schemaF "root" = .ok () := by
  rw [cvalidate]
  simp [schemaF, inferType, CSchema.type, CSchema.fields, CSchema.enum, CSchema.format,
    CSchema.addl, CSchema.items, CSchema.subtype, itemSchemaOf, typeStep, enumStep,
    formatStep, objChecks, CSchema.required, dictHas, TypeSpec.truthy, TypeSpec.allowed,
    typeMatches, cvalidateChildren, fieldsGet, childPath, cvalidate]
  all_goals first | rfl | (intros; simp_all)

/-- C9 counterexample: the dereference step re-parses string values on
every pass, so a canonical output is not a fixed point — the JSON string
literal \x27"12"\x27 dereferences to the string `12`, which the next pass
dereferences to the integer 12. -/
theorem input_revalidation_drifts :
    parseAndValidateInput (fun _ => none) schemaF (.vdict [("f", .vstr "\"12\"")])
      = .ok (.vdict [("f", .vstr "12")])
    ∧ parseAndValidateInput (fun _ => none) schemaF (.vdict [("f", .vstr "12")])
      = .ok (.vdict [("f", .vint 12)])
    ∧ Value.vdict [("f", .vstr "12")] ≠ .vdict [("f", .vint 12)] := by
  refine ⟨?_, ?_, by decide⟩
  · rw [show parseAndValidateInput (fun _ => none) schemaF (.vdict [("f", .vstr "\"12\"")])
        = (match cvalidate (.vdict [("f", .vstr "12")]) schemaF "root" with
           | .error e => (.error e : Except PyError Value)
           | .ok _ => .ok (.vdict [("f", .vstr "12")])) from rfl,
      cvalidate_f_str]
  · rw [show parseAndValidateInput (fun _ => none) schemaF (.vdict [("f", .vstr "12")])
        = (match cvalidate (.vdict [("f", .vint 12)]) schemaF "root" with
           | .error e => (.error e : Except PyError Value)
           | .ok _ => .ok (.vdict [("f", .vint 12)])) from rfl,
      cvalidate_f_int]

/-- The witness mapping validates under the string/verbosity schema. -/
theorem cvalidate_sv : cvalidate (.vdict [("start_dtg", .vstr "abc"),
    ("verbosity", .vstr "WARN")]) schemaSV "root" = .ok () := by
  rw [cvalidate]
  simp [schemaSV, inferType, CSchema.type, CSchema.fields, CSchema.enum, CSchema.format,
    CSchema.addl, CSchema.items, CSchema.subtype, itemSchemaOf, typeStep, enumStep,
    formatStep, objChecks, CSchema.required, dictHas, TypeSpec.truthy, TypeSpec.allowed,
    typeMatches, cvalidateChildren, fieldsGet, childPath, cvalidate]
  all_goals first | rfl | (intros; simp_all)

/-- The C9 theorem at a concrete input: a mapping whose strings are not
JSON and whose defaulted field is present is returned unchanged. -/
theorem input_revalidation_fixed_witness :
    parseAndValidateInput (fun _ => none) schemaSV
      (.vdict [("start_dtg", .vstr "abc"), ("verbosity", .vstr "WARN")])
      = .ok (.vdict [("start_dtg", .vstr "abc"), ("verbosity", .vstr "WARN")]) := by
  apply input_revalidation_fixed (fun _ => none) schemaSV
    [("start_dtg", .mk (some (.many ["string"])) none none none none none none none true none),
     ("verbosity", .mk (some (.many ["string"])) none none none none none none none false (some (.vstr "INFO")))]
    [("start_dtg", .vstr "abc"), ("verbosity", .vstr "WARN")]
    rfl ?_ ?_ cvalidate_sv
  · intro kv hkv
    fin_cases hkv <;> rfl
  · intro nf hnf hne
    fin_cases hnf
    · simp [CSchema.default] at hne
    · rfl

/-- The code-point order on character lists is total. -/
theorem charsLe_total : ∀ as bs : List Char, charsLe as bs = true ∨ charsLe bs as = true := by
  intro as
  induction as with
  | nil => intro bs; left; rfl
  | cons a as ih =>
      intro bs
      cases bs with
      | nil => right; rfl
      | cons b bs =>
          simp only [charsLe]
          by_cases h1 : a.toNat < b.toNat
          · left; simp [h1]
          · by_cases h2 : b.toNat < a.toNat
            · right; simp [h2]
            · rcases ih bs with hc | hc
              · left; simp [h1, h2, hc]
              · right; simp [h1, h2, hc]

/-- The code-point order on character lists is transitive. -/
theorem charsLe_trans : ∀ as bs cs : List Char,
    charsLe as bs = true → charsLe bs cs = true → charsLe as cs = true := by
  intro as
  induction as with
  | nil => intro bs cs _ _; rfl
  | cons a as ih =>
      intro bs cs h1 h2
      cases bs with
      | nil => simp [charsLe] at h1
      | cons b bs =>
          cases cs with
          | nil => simp [charsLe] at h2
          | cons c cs =>
              simp only [charsLe] at h1 h2 ⊢
              split_ifs at h1 h2 ⊢ <;>
                first
                  | rfl
                  | (exact ih bs cs h1 h2)
                  | omega

/-- The code-point order on character lists is antisymmetric. -/
theorem charsLe_antisymm : ∀ as bs : List Char,
    charsLe as bs = true → charsLe bs as = true → as = bs := by
  intro as
  induction as with
  | nil =>
      intro bs _ h2
      cases bs with
      | nil => rfl
      | cons b bs => simp [charsLe] at h2
  | cons a as ih =>
      intro bs h1 h2
      cases bs with
      | nil => simp [charsLe] at h1
      | cons b bs =>
          simp only [charsLe] at h1 h2
          by_cases hab : a.toNat < b.toNat
          · simp [hab, show ¬ b.toNat < a.toNat by omega] at h2
          · by_cases hba : b.toNat < a.toNat
            · simp [hab, hba] at h1
            · simp [hab, hba] at h1 h2
              have hn : a.toNat = b.toNat := by omega
              have hch : a = b := by
                have hv : a.val = b.val := by
                  have h4 := hn
                  simp only [Char.toNat] at h4
                  exact UInt32.eq_of_val_eq (by exact Fin.eq_of_val_eq h4)
                exact Char.eq_of_val_eq hv
              rw [hch, ih bs h1 h2]

/-- The code-point order on strings is antisymmetric. -/
theorem strLe_antisymm (a b : String) (h1 : strLe a b = true)
    (h2 : strLe b a = true) : a = b := by
  cases a with
  | mk da =>
      cases b with
      | mk db =>
          simp only [strLe] at h1 h2
          have h3 := charsLe_antisymm da db (by simpa using h1) (by simpa using h2)
          rw [h3]

/-- `_json_safe` over dict entries is a per-value map (keys untouched). -/
theorem jsonSafePairs_map : ∀ l : List (String × Value),
    jsonSafePairs l = l.map (fun kv => (kv.1, jsonSafe kv.2)) := by
  intro l
  induction l with
  | nil => rfl
  | cons kv rest ih =>
      cases kv with
      | mk k v => rw [jsonSafePairs, ih]; rfl

/-- Two key-sorted entry lists with duplicate-free keys that are
permutations of each other are equal: sorting canonicalises key order. -/
theorem sorted_nodup_keys_eq (l l2 : List (String × Value))
    (hperm : l.Perm l2)
    (hs1 : l.Pairwise keyLe) (hs2 : l2.Pairwise keyLe)
    (hnd : (l.map Prod.fst).Nodup) : l = l2 := by
  haveI : IsAntisymm (String × Value) (fun a b => keyLe a b ∧ a.1 ≠ b.1) :=
    ⟨fun a b h1 h2 => absurd (strLe_antisymm a.1 b.1 h1.1 h2.1) h1.2⟩
  have hnd2 : (l2.map Prod.fst).Nodup := (hperm.map Prod.fst).nodup_iff.mp hnd
  have hp1 : l.Pairwise (fun a b : String × Value => a.1 ≠ b.1) := by
    have := (List.pairwise_map).mp hnd
    exact this
  have hp2 : l2.Pairwise (fun a b : String × Value => a.1 ≠ b.1) := by
    have := (List.pairwise_map).mp hnd2
    exact this
  have hs1s : List.Sorted (fun a b : String × Value => keyLe a b ∧ a.1 ≠ b.1) l :=
    (List.pairwise_and_iff).mpr ⟨hs1, hp1⟩
  have hs2s : List.Sorted (fun a b : String × Value => keyLe a b ∧ a.1 ≠ b.1) l2 :=
    (List.pairwise_and_iff).mpr ⟨hs2, hp2⟩
  exact List.eq_of_perm_of_sorted hperm hs1s hs2s

/-- C7: key insertion order does not affect the content hash.  For any two
mappings that are permutations of one another (with duplicate-free keys,
as Python dicts guarantee), `sort_keys=True` canonicalises the entry order,
so the exact byte string fed to SHA-256 — and hence the digest `_hash`
returns — is identical; repeated calls on equal values therefore return
the same digest. -/
theorem hash_key_order_irrelevant (kvs kvs2 : List (String × Value))
    (hperm : kvs.Perm kvs2)
    (hnd : (kvs.map Prod.fst).Nodup) :
    hashInput (.vdict kvs) = hashInput (.vdict kvs2)
    ∧ hashVal (.vdict kvs) = hashVal (.vdict kvs2) := by
  haveI : IsTotal (String × Value) keyLe := ⟨fun a b => by
    rcases charsLe_total a.1.toList b.1.toList with h | h
    · exact Or.inl h
    · exact Or.inr h⟩
  haveI : IsTrans (String × Value) keyLe := ⟨fun a b c h1 h2 =>
    charsLe_trans _ _ _ h1 h2⟩
  have hpermJ : (jsonSafePairs kvs).Perm (jsonSafePairs kvs2) := by
    rw [jsonSafePairs_map, jsonSafePairs_map]
    exact hperm.map _
  have hndJ : ((jsonSafePairs kvs).map Prod.fst).Nodup := by
    rw [jsonSafePairs_map, List.map_map]
    simpa [Function.comp] using hnd
  have hpermS : (sortPairs (jsonSafePairs kvs)).Perm (sortPairs (jsonSafePairs kvs2)) :=
    ((List.perm_insertionSort keyLe (jsonSafePairs kvs)).trans hpermJ).trans
      (List.perm_insertionSort keyLe (jsonSafePairs kvs2)).symm
  have hndS : ((sortPairs (jsonSafePairs kvs)).map Prod.fst).Nodup := by
    have hp := (List.perm_insertionSort keyLe (jsonSafePairs kvs)).map Prod.fst
    exact hp.nodup_iff.mpr hndJ
  have hsorteq : sortPairs (jsonSafePairs kvs) = sortPairs (jsonSafePairs kvs2) := by
    exact sorted_nodup_keys_eq _ _ hpermS
      (List.sorted_insertionSort keyLe _)
      (List.sorted_insertionSort keyLe _) hndS
  constructor
  · simp only [hashInput, canonJson, jsonSafe]
    rw [encL, encL, hsorteq]
  · simp only [hashVal, canonJson, jsonSafe]
    rw [encL, encL, hsorteq]

/-- The C7 theorem at a concrete two-key mapping and its swap. -/
theorem hash_key_order_irrelevant_witness :
    hashInput (.vdict [("b", .vint 1), ("a", .vint 2)])
      = hashInput (.vdict [("a", .vint 2), ("b", .vint 1)])
    ∧ hashVal (.vdict [("b", .vint 1), ("a", .vint 2)])
      = hashVal (.vdict [("a", .vint 2), ("b", .vint 1)]) :=
  hash_key_order_irrelevant _ _ (by decide) (by decide)

theorem natCharsF_append : ∀ (fuel n : Nat) (acc : List Char), n < fuel →
    natCharsF fuel n acc = natCharsF fuel n [] ++ acc := by
  intro fuel
  induction fuel with
  | zero => intro n acc h; omega
  | succ fuel ih =>
      intro n acc h
      by_cases h10 : n < 10
      · simp [natCharsF, h10]
      · have hdiv : n / 10 < fuel := by
          have := Nat.div_lt_self (by omega : 0 < n) (by omega : 1 < 10)
          omega
        simp only [natCharsF, if_neg h10]
        rw [ih (n / 10) (Char.ofNat (48 + n % 10) :: acc) hdiv,
            ih (n / 10) [Char.ofNat (48 + n % 10)] hdiv]
        simp

theorem natCharsF_digits : ∀ (fuel n : Nat), n < fuel →
    ∀ c ∈ natCharsF fuel n [], isDigit c = true := by
  intro fuel
  induction fuel with
  | zero => intro n h; omega
  | succ fuel ih =>
      intro n h c hc
      have hdig : isDigit (Char.ofNat (48 + n % 10)) = true := by
        have hm : n % 10 < 10 := Nat.mod_lt _ (by omega)
        interval_cases hmod : n % 10 <;> decide
      by_cases h10 : n < 10
      · simp only [natCharsF, if_pos h10] at hc
        simp only [List.mem_singleton] at hc
        rw [hc]; exact hdig
      · have hdiv : n / 10 < fuel := by
          have := Nat.div_lt_self (by omega : 0 < n) (by omega : 1 < 10)
          omega
        simp only [natCharsF, if_neg h10] at hc
        rw [natCharsF_append fuel _ _ hdiv] at hc
        rcases List.mem_append.mp hc with hc2 | hc2
        · exact ih _ hdiv c hc2
        · simp only [List.mem_singleton] at hc2
          rw [hc2]; exact hdig

theorem digitsVal_append_one (ds : List Char) (d : Char) :
    digitsVal (ds ++ [d]) = 10 * digitsVal ds + (d.toNat - 48) := by
  simp [digitsVal, List.foldl_append]

theorem natCharsF_val : ∀ (fuel n : Nat), n < fuel →
    digitsVal (natCharsF fuel n []) = n := by
  intro fuel
  induction fuel with
  | zero => intro n h; omega
  | succ fuel ih =>
      intro n h
      have htn : (Char.ofNat (48 + n % 10)).toNat - 48 = n % 10 := by
        have hm : n % 10 < 10 := Nat.mod_lt _ (by omega)
        interval_cases hmod : n % 10 <;> decide
      by_cases h10 : n < 10
      · simp only [natCharsF, if_pos h10]
        show digitsVal [_] = n
        simp [digitsVal, htn]
        omega
      · have hdiv : n / 10 < fuel := by
          have := Nat.div_lt_self (by omega : 0 < n) (by omega : 1 < 10)
          omega
        simp only [natCharsF, if_neg h10]
        rw [natCharsF_append fuel _ _ hdiv, digitsVal_append_one, ih _ hdiv, htn]
        omega

theorem natCharsF_ne_nil (fuel n : Nat) (h : n < fuel) :
    natCharsF fuel n [] ≠ [] := by
  cases fuel with
  | zero => omega
  | succ fuel =>
      by_cases h10 : n < 10
      · simp [natCharsF, h10]
      · have hdiv : n / 10 < fuel := by
          have := Nat.div_lt_self (by omega : 0 < n) (by omega : 1 < 10)
          omega
        simp only [natCharsF, if_neg h10]
        rw [natCharsF_append fuel _ _ hdiv]
        simp

theorem digitSpan_append (ds rest : List Char)
    (hd : ∀ c ∈ ds, isDigit c = true) (hr : noDigitStart rest = true) :
    digitSpan (ds ++ rest) = (ds, rest) := by
  induction ds with
  | nil =>
      cases rest with
      | nil => rfl
      | cons c r =>
          simp only [noDigitStart, Bool.not_eq_true'] at hr
          simp [digitSpan, hr]
  | cons d ds ih =>
      have hdd := hd d (List.mem_cons_self d ds)
      simp only [List.cons_append, digitSpan, hdd, if_true]
      simp only [List.append_eq]
      rw [ih (fun c hc => hd c (List.mem_cons_of_mem d hc))]

theorem escChar_plain (c : Char) (h : plainChar c = true) : escChar c = [c] := by
  simp only [plainChar, Bool.and_eq_true, Bool.not_eq_true', decide_eq_true_eq,
    decide_eq_false_iff_not] at h
  obtain ⟨⟨⟨h1, h2⟩, h3⟩, h4⟩ := h
  have hn : c.toNat ≠ 10 ∧ c.toNat ≠ 13 ∧ c.toNat ≠ 9 ∧ c.toNat ≠ 8 ∧ c.toNat ≠ 12 := by
    omega
  simp only [escChar]
  rw [if_neg h3, if_neg h4, if_neg, if_neg, if_neg, if_neg hn.2.2.2.1,
      if_neg hn.2.2.2.2, if_pos ⟨h1, h2⟩]
  · intro he
    exact hn.2.2.1 (by rw [he]; rfl)
  · intro he
    exact hn.2.1 (by rw [he]; rfl)
  · intro he
    exact hn.1 (by rw [he]; rfl)

theorem flatMap_esc_plain : ∀ cs : List Char, (∀ c ∈ cs, plainChar c = true) →
    cs.flatMap escChar = cs := by
  intro cs
  induction cs with
  | nil => intro h; rfl
  | cons c cs ih =>
      intro h
      rw [List.flatMap_cons, escChar_plain c (h c (List.mem_cons_self c cs)),
        ih (fun d hd => h d (List.mem_cons_of_mem c hd))]
      rfl

theorem strSpan_append : ∀ (cs rest : List Char),
    (∀ c ∈ cs, plainChar c = true) →
    strSpan (cs ++ '"' :: rest) = some (cs, rest) := by
  intro cs
  induction cs with
  | nil => intro rest _; rfl
  | cons c cs ih =>
      intro rest h
      have hc := h c (List.mem_cons_self c cs)
      have hq : ¬ (c = '"') := by
        simp only [plainChar, Bool.and_eq_true, Bool.not_eq_true',
          decide_eq_false_iff_not] at hc
        exact hc.1.2
      simp only [List.cons_append, strSpan, if_neg hq, List.append_eq]
      rw [ih rest (fun d hd => h d (List.mem_cons_of_mem c hd))]

theorem sortPairs_self (kvs : List (String × Value))
    (h : keysStrictSorted kvs = true) : sortPairs kvs = kvs := by
  haveI : IsTrans (String × Value) keyLe := ⟨fun a b c h1 h2 =>
    charsLe_trans _ _ _ h1 h2⟩
  have hchain : List.Chain' keyLe kvs := by
    induction kvs with
    | nil => exact List.chain'_nil
    | cons a rest ih =>
        cases rest with
        | nil => simp
        | cons b r =>
            simp only [keysStrictSorted, Bool.and_eq_true] at h
            refine List.Chain'.cons h.1.1 ?_
            exact ih h.2
  exact List.Sorted.insertionSort_eq (List.chain'_iff_pairwise.mp hchain)

mutual
theorem jsonSafe_canon : ∀ v : Value, canonV v = true → jsonSafe v = v
  | .vnull, _ => rfl
  | .vbool _, _ => rfl
  | .vint _, _ => rfl
  | .vstr _, _ => rfl
  | .vlist xs, h => by
      simp only [canonV] at h
      simp only [jsonSafe, jsonSafeList_canon xs h]
  | .vdict kvs, h => by
      simp only [canonV, Bool.and_eq_true] at h
      simp only [jsonSafe, jsonSafePairs_canon kvs h.2]
  | .vtuple _, h => by simp [canonV] at h
  | .vdf _, h => by simp [canonV] at h
  | .vfloat _, h => by simp [canonV] at h

theorem jsonSafeList_canon :
    ∀ xs : List Value, canonVList xs = true → jsonSafeList xs = xs
  | [], _ => rfl
  | x :: xs, h => by
      simp only [canonVList, Bool.and_eq_true] at h
      simp only [jsonSafeList, jsonSafe_canon x h.1, jsonSafeList_canon xs h.2]

theorem jsonSafePairs_canon :
    ∀ kvs : List (String × Value), canonVPairs kvs = true → jsonSafePairs kvs = kvs
  | [], _ => rfl
  | (k, v) :: rest, h => by
      simp only [canonVPairs, Bool.and_eq_true] at h
      simp only [jsonSafePairs, jsonSafe_canon v h.1.2, jsonSafePairs_canon rest h.2]
end

theorem value_sizeOf_pos : ∀ v : Value, 0 < sizeOf v := by
  intro v
  cases v <;> simp

theorem isDigit_head_ne (c : Char) (h : isDigit c = true) :
    c ≠ 'n' ∧ c ≠ 't' ∧ c ≠ 'f' ∧ c ≠ '"' ∧ c ≠ '[' ∧ c ≠ '\x7b' ∧ c ≠ '-' := by
  refine ⟨?_, ?_, ?_, ?_, ?_, ?_, ?_⟩ <;>
    (intro he; subst he; exact absurd h (by decide))

theorem tdec_null (fuel : Nat) (rest : List Char) :
    decV (fuel + 1) ('n' :: 'u' :: 'l' :: 'l' :: rest) = some (.vnull, rest) := by
  simp [decV, expect3]

theorem tdec_digit (fuel : Nat) (c : Char) (r : List Char) (h : isDigit c = true) :
    decV (fuel + 1) (c :: r) =
      (match digitSpan (c :: r) with
       | (ds, r2) => some (.vint ((digitsVal ds : Int)), r2)) := by
  obtain ⟨h1, h2, h3, h4, h5, h6, h7⟩ := isDigit_head_ne c h
  simp [decV, h1, h2, h3, h4, h5, h6, h7, h]

theorem string_mk_data (s : String) : (⟨s.data⟩ : String) = s := rfl

theorem tdec_quote (fuel : Nat) (r : List Char) :
    decV (fuel + 1) ('"' :: r) = (strSpan r).map fun p => (Value.vstr ⟨p.1⟩, p.2) := by
  simp [decV]

theorem encL_head (v : Value) (h : canonV v = true) :
    ∃ c t, encL v = c :: t ∧ c ≠ ']' := by
  cases v with
  | vnull => exact ⟨'n', ['u', 'l', 'l'], by simp [encL], by decide⟩
  | vbool b =>
      cases b
      · exact ⟨'f', ['a', 'l', 's', 'e'], by simp [encL], by decide⟩
      · exact ⟨'t', ['r', 'u', 'e'], by simp [encL], by decide⟩
  | vint n =>
      by_cases hneg : n < 0
      · exact ⟨'-', natChars n.natAbs [], by simp [encL, intChars, hneg], by decide⟩
      · obtain ⟨d, ds, hnc⟩ : ∃ d ds, natCharsF (n.natAbs + 1) n.natAbs [] = d :: ds := by
          cases hn2 : natCharsF (n.natAbs + 1) n.natAbs [] with
          | nil => exact absurd hn2 (natCharsF_ne_nil _ _ (Nat.lt_succ_self _))
          | cons d ds => exact ⟨d, ds, rfl⟩
        have hd : isDigit d = true :=
          natCharsF_digits _ _ (Nat.lt_succ_self _) d (by rw [hnc]; exact List.mem_cons_self _ _)
        refine ⟨d, ds, ?_, ?_⟩
        · simp [encL, intChars, hneg, natChars, hnc]
        · intro he; subst he; exact absurd hd (by decide)
  | vstr s =>
      exact ⟨'"', s.toList.flatMap escChar ++ ['"'], by simp [encL, strLitChars], by decide⟩
  | vlist xs => exact ⟨'[', encItems xs ++ [']'], by simp [encL], by decide⟩
  | vdict kvs => exact ⟨'\x7b', encMembers (sortPairs kvs) ++ ['\x7d'], by simp [encL], by decide⟩
  | vtuple xs => simp [canonV] at h
  | vdf a => simp [canonV] at h
  | vfloat t => simp [canonV] at h

/-- The canonical encoder and the reference decoder round-trip on the
canonical fragment: decoding `encL v ++ rest` recovers exactly `v` and
`rest` (for any continuation that does not extend a trailing number).
This is the unambiguity witness behind hash-input injectivity. -/
theorem dec_enc : ∀ fuel : Nat,
    (∀ v rest, canonV v = true → sizeOf v ≤ fuel → noDigitStart rest = true →
       decV fuel (encL v ++ rest) = some (v, rest)) ∧
    (∀ xs rest, xs ≠ [] → canonVList xs = true → sizeOf xs ≤ fuel →
       decItems fuel (encItems xs ++ ']' :: rest) = some (xs, ']' :: rest)) ∧
    (∀ kvs rest, kvs ≠ [] → canonVPairs kvs = true → sizeOf kvs ≤ fuel →
       decMembers fuel (encMembers kvs ++ '\x7d' :: rest) = some (kvs, '\x7d' :: rest)) := by
  intro fuel
  induction fuel with
  | zero =>
      refine ⟨fun v rest hc hs hn => absurd hs ?_,
              fun xs rest hne hc hs => absurd hs ?_,
              fun kvs rest hne hc hs => absurd hs ?_⟩
      · have := value_sizeOf_pos v; omega
      · cases xs <;> simp
      · cases kvs <;> simp
  | succ fuel ih =>
      obtain ⟨ihV, ihI, ihM⟩ := ih
      refine ⟨fun v rest hc hs hn => ?_, fun xs rest hne hc hs => ?_,
              fun kvs rest hne hc hs => ?_⟩
      · -- decV on one encoded value
        cases v with
        | vnull => simp [encL, decV, expect3]
        | vbool b => cases b <;> simp [encL, decV, expect3, expect4]
        | vint n =>
            have hdigs : ∀ c ∈ natCharsF (n.natAbs + 1) n.natAbs [], isDigit c = true :=
              fun c hcm => natCharsF_digits _ _ (Nat.lt_succ_self _) c hcm
            have hspan : digitSpan (natCharsF (n.natAbs + 1) n.natAbs [] ++ rest)
                = (natCharsF (n.natAbs + 1) n.natAbs [], rest) :=
              digitSpan_append _ _ hdigs hn
            have hval : digitsVal (natCharsF (n.natAbs + 1) n.natAbs []) = n.natAbs :=
              natCharsF_val _ _ (Nat.lt_succ_self _)
            obtain ⟨d, ds, hnc⟩ :
                ∃ d ds, natCharsF (n.natAbs + 1) n.natAbs [] = d :: ds := by
              cases hn2 : natCharsF (n.natAbs + 1) n.natAbs [] with
              | nil => exact absurd hn2 (natCharsF_ne_nil _ _ (Nat.lt_succ_self _))
              | cons d ds => exact ⟨d, ds, rfl⟩
            rw [hnc] at hspan hval
            have hd : isDigit d = true := by
              refine hdigs d ?_
              rw [hnc]; exact List.mem_cons_self _ _
            by_cases hneg : n < 0
            · have henc : encL (.vint n) ++ rest = '-' :: (d :: (ds ++ rest)) := by
                simp [encL, intChars, hneg, natChars, hnc]
              rw [henc]
              simp only [List.cons_append] at hspan
              simp [decV, hspan, hval]
              rw [abs_of_neg hneg]
              omega
            · have henc : encL (.vint n) ++ rest = d :: (ds ++ rest) := by
                simp [encL, intChars, hneg, natChars, hnc]
              rw [henc, tdec_digit fuel d _ hd]
              simp only [List.cons_append] at hspan
              simp [hspan, hval]
              omega
        | vstr s =>
            have hpl : ∀ c ∈ s.data, plainChar c = true := by
              simp only [canonV, plainStr, List.all_eq_true] at hc
              exact hc
            have hstr := strSpan_append s.data rest hpl
            have henc : encL (.vstr s) ++ rest = '"' :: (s.data ++ '"' :: rest) := by
              simp [encL, strLitChars, flatMap_esc_plain s.data hpl]
            rw [henc, tdec_quote]
            simp [hstr, string_mk_data]
        | vlist xs =>
            simp only [canonV] at hc
            cases xs with
            | nil => simp [encL, encItems, decV]
            | cons x xs' =>
                have hx : canonV x = true := by
                  have h2 := hc
                  simp only [canonVList, Bool.and_eq_true] at h2
                  exact h2.1
                obtain ⟨ch, ct, hhead, hne1⟩ := encL_head x hx
                have hszl : sizeOf (x :: xs') ≤ fuel := by
                  simp at hs; simp; omega
                have hE : ∃ s0, encItems (x :: xs') = encL x ++ s0 := by
                  cases xs' with
                  | nil => exact ⟨[], by simp [encItems]⟩
                  | cons y t => exact ⟨',' :: encItems (y :: t), by simp [encItems]⟩
                obtain ⟨s0, hE⟩ := hE
                have key := ihI (x :: xs') rest (by simp) hc hszl
                rw [hE, hhead] at key
                simp only [List.cons_append, List.append_assoc] at key
                have henc : encL (.vlist (x :: xs')) ++ rest
                    = '[' :: (encItems (x :: xs') ++ ']' :: rest) := by
                  simp [encL]
                rw [henc, hE, hhead]
                simp only [List.cons_append, List.append_assoc]
                simp [decV, hne1, key, expectClose]
        | vdict kvs =>
            simp only [canonV, Bool.and_eq_true] at hc
            cases kvs with
            | nil =>
                have hso : sortPairs ([] : List (String × Value)) = [] := by
                  simp [sortPairs]
                simp [encL, hso, encMembers, decV]
            | cons kv t =>
                have hso := sortPairs_self (kv :: t) hc.1
                have hszl : sizeOf (kv :: t) ≤ fuel := by
                  simp at hs; simp; omega
                have hE : ∃ s0, encMembers (kv :: t) = '"' :: s0 := by
                  obtain ⟨k, v2⟩ := kv
                  cases t with
                  | nil =>
                      exact ⟨(k.toList.flatMap escChar ++ ['"']) ++ ':' :: encL v2,
                        by simp [encMembers, strLitChars]⟩
                  | cons m t' =>
                      exact ⟨(k.toList.flatMap escChar ++ ['"']) ++
                          ':' :: (encL v2 ++ ',' :: encMembers (m :: t')),
                        by simp [encMembers, strLitChars]⟩
                obtain ⟨s0, hE⟩ := hE
                have key := ihM (kv :: t) rest (by simp) hc.2 hszl
                rw [hE] at key
                simp only [List.cons_append, List.append_assoc] at key
                have henc : encL (.vdict (kv :: t)) ++ rest
                    = '\x7b' :: (encMembers (kv :: t) ++ '\x7d' :: rest) := by
                  simp [encL, hso]
                rw [henc, hE]
                simp only [List.cons_append, List.append_assoc]
                simp [decV, key, expectClose]
        | vtuple xs => simp [canonV] at hc
        | vdf a => simp [canonV] at hc
        | vfloat t => simp [canonV] at hc
      · -- decItems on a non-empty encoded item list
        cases xs with
        | nil => exact absurd rfl hne
        | cons x xs' =>
            simp only [canonVList, Bool.and_eq_true] at hc
            rw [decItems]
            cases xs' with
            | nil =>
                have hsz1 : sizeOf x ≤ fuel := by simp at hs; omega
                have hv := ihV x (']' :: rest) hc.1 hsz1 (by rfl)
                have henc : encItems [x] ++ ']' :: rest = encL x ++ ']' :: rest := by
                  simp [encItems]
                rw [henc, hv]
                simp
            | cons y t =>
                have hpos := value_sizeOf_pos x
                have hsz1 : sizeOf x ≤ fuel := by simp at hs; omega
                have hsz2 : sizeOf (y :: t) ≤ fuel := by
                  simp at hs; simp; omega
                have hv := ihV x (',' :: (encItems (y :: t) ++ ']' :: rest)) hc.1 hsz1 (by rfl)
                have hrec := ihI (y :: t) rest (by simp) hc.2 hsz2
                have henc : encItems (x :: y :: t) ++ ']' :: rest
                    = encL x ++ (',' :: (encItems (y :: t) ++ ']' :: rest)) := by
                  simp [encItems]
                rw [henc, hv]
                simp [hrec]
      · -- decMembers on a non-empty encoded member list
        cases kvs with
        | nil => exact absurd rfl hne
        | cons kv t =>
            obtain ⟨k, v⟩ := kv
            simp only [canonVPairs, Bool.and_eq_true] at hc
            have hpl : ∀ c ∈ k.data, plainChar c = true := by
              have h2 := hc.1.1
              simp only [plainStr, List.all_eq_true] at h2
              exact h2
            have hposk := value_sizeOf_pos v
            have hszv : sizeOf v ≤ fuel := by simp at hs; omega
            cases t with
            | nil =>
                have hstr := strSpan_append k.data (':' :: (encL v ++ '\x7d' :: rest)) hpl
                have hv := ihV v ('\x7d' :: rest) hc.1.2 hszv (by rfl)
                have henc : encMembers [(k, v)] ++ '\x7d' :: rest
                    = '"' :: (k.data ++ '"' :: (':' :: (encL v ++ '\x7d' :: rest))) := by
                  simp [encMembers, strLitChars, flatMap_esc_plain k.data hpl]
                rw [henc, decMembers]
                simp [hstr, expectClose, hv, string_mk_data]
            | cons m t' =>
                have hszt : sizeOf (m :: t') ≤ fuel := by
                  simp at hs; simp; omega
                have hrest := ',' :: (encMembers (m :: t') ++ '\x7d' :: rest)
                have hstr := strSpan_append k.data
                  (':' :: (encL v ++ ',' :: (encMembers (m :: t') ++ '\x7d' :: rest))) hpl
                have hv := ihV v (',' :: (encMembers (m :: t') ++ '\x7d' :: rest))
                  hc.1.2 hszv (by rfl)
                have hrec := ihM (m :: t') rest (by simp) hc.2 hszt
                have henc : encMembers ((k, v) :: m :: t') ++ '\x7d' :: rest
                    = '"' :: (k.data ++ '"' :: (':' :: (encL v ++
                        ',' :: (encMembers (m :: t') ++ '\x7d' :: rest)))) := by
                  simp [encMembers, strLitChars, flatMap_esc_plain k.data hpl]
                rw [henc, decMembers]
                simp [hstr, expectClose, hv, hrec, string_mk_data]

theorem encL_canon_inj (v w : Value) (hv : canonV v = true) (hw : canonV w = true)
    (he : encL v = encL w) : v = w := by
  have h1 := (dec_enc (sizeOf v + sizeOf w)).1 v [] hv (by omega) rfl
  have h2 := (dec_enc (sizeOf v + sizeOf w)).1 w [] hw (by omega) rfl
  rw [List.append_nil] at h1 h2
  rw [he, h2] at h1
  simp only [Option.some.injEq, Prod.mk.injEq] at h1
  exact h1.1.symm

/-- C4 (amended): the spec's universal hash-sensitivity claim fails (the
counterexample collides a tuple with a list), but on the canonical fragment
— values built from null, booleans, integers, escape-free strings, lists
and strictly key-sorted dicts with escape-free keys — `_hash` is fully
sensitive at the level of its SHA-256 input: two distinct canonical values
always feed different canonical-JSON byte strings to the digest, so their
hashes differ whenever SHA-256 itself does not collide. -/
theorem hash_input_canon_injective (v w : Value)
    (hv : canonV v = true) (hw : canonV w = true) (hne : v ≠ w) :
    hashInput v ≠ hashInput w := by
  intro he
  apply hne
  apply encL_canon_inj v w hv hw
  have h2 : canonJson (jsonSafe v) = canonJson (jsonSafe w) := he
  rw [jsonSafe_canon v hv, jsonSafe_canon w hw] at h2
  exact congrArg String.data h2

theorem hash_input_canon_injective_witness :
    hashInput (.vdict [("a", .vint 1)]) ≠ hashInput (.vdict [("a", .vint 2)]) :=
  hash_input_canon_injective _ _ (by decide) (by decide) (by simp)

/-- C4 (counterexample to the claim as stated): a one-element tuple and the
equal-content list are distinct values, yet `_json_safe` coalesces tuples
onto lists, so both the exact byte string `_hash` digests and the digest
itself coincide: `hash(v) = hash(v2)` although `v ≠ v2`. -/
theorem hash_tuple_list_collision :
    Value.vtuple [.vint 1] ≠ Value.vlist [.vint 1] ∧
    hashInput (.vtuple [.vint 1]) = hashInput (.vlist [.vint 1]) ∧
    hashVal (.vtuple [.vint 1]) = hashVal (.vlist [.vint 1]) := by
  refine ⟨by simp, ?_, ?_⟩ <;> simp [hashInput, hashVal, jsonSafe]

end ContractSchema
